import Mathlib

/-!
# Receipt processor: a shallow embedding of `main.go`

The scoring function `calculatePoints` and its helper `countAlphanumeric` are
embedded together with the parts of the Go standard library they call
(`strconv.ParseFloat`, `math.Mod`, `math.Ceil`, float64 multiplication and
conversion to `int`, `strings.TrimSpace`, `time.Parse`, `regexp`).

Conventions.
* A Go `string` is a Lean `String`: the JSON decoder only produces valid UTF-8.
  `len` is the UTF-8 byte length.  The byte-oriented library routines only test
  bytes against ASCII characters, so they are read character by character.
* A Go `int` is 64 bits wide; it is an `Int` and every addition and
  multiplication is reduced by `wrapInt` (two's complement).  The conversion of a
  float64 that does not fit is the one of amd64.
* A `float64` is a value of `F64`.  A finite float is a sign and a magnitude
  counted in units of `2^-1074`, the smallest positive float64: every finite
  float64 is a whole number of these units.
-/

namespace ReceiptProcessor

/-! ## float64 -/

/-- Finite float64 values are `±m·2^-1074`; the rest are the infinities and NaN. -/
inductive F64 where
  | nan : F64
  | inf (neg : Bool) : F64
  | fin (neg : Bool) (m : Nat) : F64
  deriving DecidableEq, Repr

/-- The number of `2^-1074` units in `1.0`. -/
def unit : Nat := 2 ^ 1074

/-- The number of `2^-1074` units in `0.25`. -/
def quarterUnit : Nat := 2 ^ 1072

/-- Bit length with explicit fuel: the number of halvings until zero. -/
def bitLenAux : Nat → Nat → Nat
  | 0, _ => 0
  | fuel + 1, n => if n = 0 then 0 else bitLenAux fuel (n / 2) + 1

/-- Bit length of a natural number (`0` for `0`). -/
def bitLen (n : Nat) : Nat := bitLenAux n n

/-- Round the exact non-negative quantity `num / den` (in units of `2^-1074`) to the
nearest magnitude with at most 53 significant bits, ties to even.  The result may
exceed the float64 range; `ofUnits` turns that into an infinity. -/
def roundUnits (num den : Nat) : Nat :=
  let q := num / den
  let r := num % den
  let shift := bitLen q - 53
  let ulp := 2 ^ shift
  let m := q / ulp
  let rest := (q % ulp) * den + r
  let up : Bool := decide (ulp * den < 2 * rest) || (decide (2 * rest = ulp * den) && decide (m % 2 = 1))
  (if up then m + 1 else m) * ulp

/-- The first magnitude beyond the float64 range, `2^1024` in units of `2^-1074`. -/
def overflowUnits : Nat := 2 ^ 2098

/-- Package a rounded magnitude: magnitudes beyond the largest finite float64 become ±Inf. -/
def ofUnits (neg : Bool) (m : Nat) : F64 :=
  if overflowUnits ≤ m then F64.inf neg else F64.fin neg m

namespace F64

/-- The constant `0`. -/
def zero : F64 := fin false 0

/-- The constant `1.0`. -/
def one : F64 := fin false unit

/-- The constant `0.25`. -/
def quarter : F64 := fin false quarterUnit

/-- The float64 nearest to `0.2`: `7205759403792794 · 2^-55`. -/
def pointTwo : F64 := fin false (7205759403792794 * 2 ^ 1019)

/-- The Go operator `==` on float64: NaN equals nothing, `-0 == 0`. -/
def eq : F64 → F64 → Bool
  | nan, _ => false
  | _, nan => false
  | inf a, inf b => a == b
  | inf _, fin _ _ => false
  | fin _ _, inf _ => false
  | fin a m, fin b n => (m == 0 && n == 0) || (a == b && m == n)

/-- The Go operator `*` on float64: the exact product rounded to nearest, ties to even. -/
def mul : F64 → F64 → F64
  | nan, _ => nan
  | _, nan => nan
  | inf a, inf b => inf (a != b)
  | inf a, fin b n => if n = 0 then nan else inf (a != b)
  | fin a m, inf b => if m = 0 then nan else inf (a != b)
  | fin a m, fin b n => ofUnits (a != b) (roundUnits (m * n) unit)

/-- The Go function `math.Mod(x, y)`: the remainder of `x / y` with the sign of `x`. -/
def Mod : F64 → F64 → F64
  | nan, _ => nan
  | _, nan => nan
  | inf _, _ => nan
  | fin a m, inf _ => fin a m
  | fin a m, fin _ n => if n = 0 then nan else fin a (m % n)

/-- The Go function `math.Ceil(x)`: the least integer value not below `x`. -/
def Ceil : F64 → F64
  | nan => nan
  | inf a => inf a
  | fin false m => fin false ((m + unit - 1) / unit * unit)
  | fin true m => fin true (m / unit * unit)

/-- The Go conversion `int(x)` on amd64: truncation toward zero; NaN, the infinities and
values outside the int64 range give the "integer indefinite" value `-2^63`
(the Go specification leaves these results to the implementation). -/
def toInt : F64 → Int
  | nan => -(2 ^ 63)
  | inf _ => -(2 ^ 63)
  | fin false m => if m / unit < 2 ^ 63 then ((m / unit : Nat) : Int) else -(2 ^ 63)
  | fin true m => if m / unit ≤ 2 ^ 63 then -((m / unit : Nat) : Int) else -(2 ^ 63)

end F64

/-! ## strconv.ParseFloat -/

/-- The two errors `strconv.ParseFloat` reports. -/
inductive NumError where
  | ErrSyntax : NumError
  | ErrRange : NumError
  deriving DecidableEq, Repr

/-- The helper `lower(c) = c | ('x' - 'X')` of package strconv, on the character code. -/
def lower (c : Char) : Nat := c.toNat ||| 0x20

/-- A decimal digit `'0'..'9'`. -/
def isDigit (c : Char) : Bool := decide (48 ≤ c.toNat) && decide (c.toNat ≤ 57)

/-- The value `c - '0'` of a decimal digit. -/
def digitVal (c : Char) : Nat := c.toNat - 48

/-- A hexadecimal letter: `'a' <= lower(c) && lower(c) <= 'f'`. -/
def isHexLetter (c : Char) : Bool := decide (97 ≤ lower c) && decide (lower c ≤ 102)

/-- The length of the common prefix of `s` and the lower-case word `pre`, where upper-case
ASCII letters of `s` are folded to lower case. -/
def commonPrefixLenIgnoreCase : List Char → List Char → Nat
  | c :: s, p :: pre =>
    let c' := if 65 ≤ c.toNat ∧ c.toNat ≤ 90 then c.toNat + 32 else c.toNat
    if c' ≠ p.toNat then 0 else commonPrefixLenIgnoreCase s pre + 1
  | _, _ => 0

/-- The `'i', 'I'` case of `special`: the word `inf` or `infinity`. -/
def specialInf (neg : Bool) (nsign : Nat) (s : List Char) : Option (F64 × Nat) :=
  let n := commonPrefixLenIgnoreCase s "infinity".data
  let n := if 3 < n ∧ n < 8 then 3 else n
  if n = 3 ∨ n = 8 then some (F64.inf neg, nsign + n) else none

/-- The function `special` of strconv: the words `inf`, `infinity` (optionally signed) and
`nan` at the start of `s`; returns the value and the number of bytes used. -/
def special (s : List Char) : Option (F64 × Nat) :=
  match s with
  | [] => none
  | c :: t =>
    if c = '+' then specialInf false 1 t
    else if c = '-' then specialInf true 1 t
    else if c = 'i' ∨ c = 'I' then specialInf false 0 s
    else if c = 'n' ∨ c = 'N' then
      if commonPrefixLenIgnoreCase s "nan".data = 3 then some (F64.nan, 3) else none
    else none

/-- The state of the digit loop of `readFloat`.  The mantissa is kept exact: Go keeps its
first 19 digits and, when digits were dropped, checks the result or re-reads the string
with arbitrary precision, so that the value returned is the float64 nearest to the number
written (`ParseFloat` "returns the nearest floating-point number rounded using IEEE754
unbiased rounding"). -/
structure DigitScan where
  sawdot : Bool
  sawdigits : Bool
  nd : Nat
  dp : Int
  mantissa : Nat
  underscores : Bool
  rest : List Char

/-- The digit loop of `readFloat`: digits, at most one `.`, and underscores. -/
def scanDigits (base : Nat) : List Char → DigitScan → DigitScan
  | [], st => { st with rest := [] }
  | c :: s, st =>
    if c = '_' then scanDigits base s { st with underscores := true }
    else if c = '.' then
      if st.sawdot then { st with rest := c :: s }
      else scanDigits base s { st with sawdot := true, dp := st.nd }
    else if isDigit c then
      if c = '0' ∧ st.nd = 0 then
        scanDigits base s { st with sawdigits := true, dp := st.dp - 1 }
      else
        scanDigits base s { st with sawdigits := true, nd := st.nd + 1,
                                    mantissa := st.mantissa * base + digitVal c }
    else if base = 16 ∧ isHexLetter c then
      scanDigits base s { st with sawdigits := true, nd := st.nd + 1,
                                  mantissa := st.mantissa * 16 + (lower c - 97 + 10) }
    else { st with rest := c :: s }

/-- The exponent loop of `readFloat`: digits and underscores; the exponent stops growing
once it has reached 10000. -/
def scanExp : List Char → Nat → Bool → Nat × Bool × List Char
  | [], e, u => (e, u, [])
  | c :: s, e, u =>
    if isDigit c then scanExp s (if e < 10000 then e * 10 + digitVal c else e) u
    else if c = '_' then scanExp s e true
    else (e, u, c :: s)

/-- The loop of `underscoreOK`; `saw` is the last kind of character seen
(`'0'` digit, `'_'` underscore, `'!'` other, `'^'` start). -/
def underscoreLoop (hex : Bool) : List Char → Char → Bool
  | [], saw => saw ≠ '_'
  | c :: s, saw =>
    if isDigit c || (hex && isHexLetter c) then underscoreLoop hex s '0'
    else if c = '_' then
      if saw ≠ '0' then false else underscoreLoop hex s '_'
    else if saw = '_' then false
    else underscoreLoop hex s '!'

/-- The function `underscoreOK` of strconv: underscores only between digits, or between a
base prefix and a digit. -/
def underscoreOK (s : List Char) : Bool :=
  let s := match s with
    | c :: t => if c = '-' ∨ c = '+' then t else s
    | [] => s
  match s with
  | c0 :: c1 :: t =>
    if c0 = '0' ∧ (lower c1 = 98 ∨ lower c1 = 111 ∨ lower c1 = 120) then
      underscoreLoop (lower c1 = 120) t '0'
    else underscoreLoop false s '^'
  | _ => underscoreLoop false s '^'

/-- What `readFloat` returns on success: the exact mantissa, the number of mantissa digits,
the position of the decimal point (in bits for a hexadecimal number), sign, base and the
unread rest of the input. -/
structure FloatParts where
  mantissa : Nat
  nd : Nat
  dp : Int
  neg : Bool
  hex : Bool
  rest : List Char

/-- The function `readFloat` of strconv. -/
def readFloat (s : List Char) : Option FloatParts :=
  match s with
  | [] => none
  | c :: t =>
    let neg := decide (c = '-')
    let s1 := if c = '+' ∨ c = '-' then t else s
    let hex : Bool := match s1 with
      | c0 :: c1 :: _ :: _ => decide (c0 = '0') && decide (lower c1 = 120)
      | _ => false
    let base := if hex then 16 else 10
    let s2 := if hex then s1.drop 2 else s1
    let st := scanDigits base s2 ⟨false, false, 0, 0, 0, false, []⟩
    if !st.sawdigits then none
    else
      let dp : Int := if st.sawdot then st.dp else st.nd
      let dp : Int := if hex then dp * 4 else dp
      let nd := if hex then st.nd * 4 else st.nd
      let expChar : Nat := if hex then 112 else 101
      let finish (dp : Int) (underscores : Bool) (rest : List Char) : Option FloatParts :=
        if underscores && !underscoreOK (s.take (s.length - rest.length)) then none
        else some ⟨st.mantissa, nd, dp, neg, hex, rest⟩
      match st.rest with
      | e :: r =>
        if lower e = expChar then
          match r with
          | [] => none
          | c2 :: r2 =>
            let esign : Int := if c2 = '-' then -1 else 1
            let r3 := if c2 = '+' ∨ c2 = '-' then r2 else r
            match r3 with
            | [] => none
            | d :: _ =>
              if !isDigit d then none
              else
                let (ev, u, rest) := scanExp r3 0 st.underscores
                finish (dp + ev * esign) u rest
        else if hex then none
        else finish dp st.underscores st.rest
      | [] => if hex then none else finish dp st.underscores st.rest

/-- The end of both conversions: a rounded magnitude beyond the largest finite float64 is
returned as an infinity together with a range error. -/
def packRounded (neg : Bool) (m : Nat) : F64 × Option NumError :=
  if overflowUnits ≤ m then (F64.inf neg, some NumError.ErrRange) else (F64.fin neg m, none)

/-- The decimal conversion (`decimal.floatBits`): zero, the obvious overflow and underflow
shortcuts, and otherwise the float64 nearest to `mantissa · 10^(dp - nd)`. -/
def decimalToF64 (neg : Bool) (mantissa nd : Nat) (dp : Int) : F64 × Option NumError :=
  if mantissa = 0 then (F64.fin neg 0, none)
  else if dp > 310 then (F64.inf neg, some NumError.ErrRange)
  else if dp < -330 then (F64.fin neg 0, none)
  else if 0 ≤ dp - nd then
    packRounded neg (roundUnits (mantissa * 10 ^ (dp - nd).toNat * unit) 1)
  else
    packRounded neg (roundUnits (mantissa * unit) (10 ^ (nd - dp).toNat))

/-- The hexadecimal conversion (`atofHex`): the float64 nearest to `mantissa · 2^(dp - nd)`. -/
def atofHex (neg : Bool) (mantissa nd : Nat) (dp : Int) : F64 × Option NumError :=
  if 0 ≤ dp - nd + 1074 then
    packRounded neg (roundUnits (mantissa * 2 ^ (dp - nd + 1074).toNat) 1)
  else
    packRounded neg (roundUnits mantissa (2 ^ (nd - dp - 1074).toNat))

/-- The function `atof64` of strconv: value, unread rest, error. -/
def atof64 (s : List Char) : F64 × List Char × Option NumError :=
  match special s with
  | some (val, n) => (val, s.drop n, none)
  | none =>
    match readFloat s with
    | none => (F64.zero, s, some NumError.ErrSyntax)
    | some p =>
      let (f, err) := if p.hex then atofHex p.neg p.mantissa p.nd p.dp
                      else decimalToF64 p.neg p.mantissa p.nd p.dp
      (f, p.rest, err)

/-- The function `strconv.ParseFloat(s, 64)`: the whole string must be used; on a syntax
error the value is `0`, on a range error it is ±Inf. -/
def ParseFloat (s : String) : F64 × Option NumError :=
  match atof64 s.data with
  | (f, rest, err) =>
    if rest ≠ [] ∧ err ≠ some NumError.ErrSyntax then (F64.zero, some NumError.ErrSyntax)
    else (f, err)

/-! ## strings.TrimSpace and len -/

/-- The function `unicode.IsSpace`: the Unicode White_Space property. -/
def IsSpace (c : Char) : Bool :=
  let r := c.toNat
  if r ≤ 0xFF then
    decide (r = 9) || decide (r = 10) || decide (r = 11) || decide (r = 12) || decide (r = 13)
      || decide (r = 32) || decide (r = 0x85) || decide (r = 0xA0)
  else
    decide (r = 0x1680) || (decide (0x2000 ≤ r) && decide (r ≤ 0x200A)) || decide (r = 0x2028)
      || decide (r = 0x2029) || decide (r = 0x202F) || decide (r = 0x205F) || decide (r = 0x3000)

/-- The function `strings.TrimSpace`: the string without its leading and trailing white space. -/
def TrimSpace (s : String) : String :=
  ⟨List.rdropWhile IsSpace (List.dropWhile IsSpace s.data)⟩

/-- The Go builtin `len` on a string: the number of bytes of its UTF-8 encoding. -/
def len (s : String) : Nat := (s.data.map Char.utf8Size).sum

/-! ## time.Parse -/

/-- The fields of a `time.Time` that the program reads. -/
structure Time where
  year : Nat
  month : Nat
  day : Nat
  hour : Nat
  min : Nat
  deriving DecidableEq, Repr

/-- The zero `time.Time`, `Time{}`: January 1, year 1, 00:00:00 UTC.  It is what
`time.Parse` returns together with an error. -/
def Time.zero : Time := ⟨1, 1, 1, 0, 0⟩

/-- The method `Time.Day`. -/
def Time.Day (t : Time) : Nat := t.day

/-- The method `Time.Hour`. -/
def Time.Hour (t : Time) : Nat := t.hour

/-- The helper `getnum` of package time: a one- or two-digit number; two digits are
required when `fixed`. -/
def getnum (s : List Char) (fixed : Bool) : Option (Nat × List Char) :=
  match s with
  | [] => none
  | c0 :: t =>
    if !isDigit c0 then none
    else
      match t with
      | c1 :: t1 =>
        if isDigit c1 then some (digitVal c0 * 10 + digitVal c1, t1)
        else if fixed then none else some (digitVal c0, t)
      | [] => if fixed then none else some (digitVal c0, t)

/-- The function `isLeap` of package time. -/
def isLeap (year : Nat) : Bool :=
  decide (year % 4 = 0) && (decide (year % 100 ≠ 0) || decide (year % 400 = 0))

/-- The table `daysBefore` of package time. -/
def daysBefore : List Nat := [0, 31, 59, 90, 120, 151, 181, 212, 243, 273, 304, 334, 365]

/-- The function `daysIn` of package time. -/
def daysIn (m year : Nat) : Nat :=
  if m = 2 ∧ isLeap year then 29 else daysBefore.getD m 0 - daysBefore.getD (m - 1) 0

/-- The year of layout element `2006`: exactly four digits. -/
def getYear (s : List Char) : Option (Nat × List Char) :=
  match s with
  | a :: b :: c :: d :: t =>
    if isDigit a && isDigit b && isDigit c && isDigit d then
      some (digitVal a * 1000 + digitVal b * 100 + digitVal c * 10 + digitVal d, t)
    else none
  | _ => none

/-- The literal text between two layout elements (`skip` of package time). -/
def skip (value : List Char) (c : Char) : Option (List Char) :=
  match value with
  | v :: t => if v = c then some t else none
  | [] => none

/-- The successful results of `time.Parse("2006-01-02", value)`: a four-digit year, `-`, a
two-digit month in 1..12, `-`, a two-digit day that exists in that month, and nothing else. -/
def parseDate (value : List Char) : Option Time :=
  match getYear value with
  | none => none
  | some (year, v1) =>
    match skip v1 '-' with
    | none => none
    | some v2 =>
      match getnum v2 true with
      | none => none
      | some (month, v3) =>
        if month = 0 ∨ 12 < month then none
        else
          match skip v3 '-' with
          | none => none
          | some v4 =>
            match getnum v4 true with
            | none => none
            | some (day, v5) =>
              if v5 ≠ [] then none
              else if day < 1 ∨ day > daysIn month year then none
              else some ⟨year, month, day, 0, 0⟩

/-- The successful results of `time.Parse("15:04", value)`: a one- or two-digit hour below
24, `:`, a two-digit minute below 60, and nothing else; the date is January 1, year 0. -/
def parseClock (value : List Char) : Option Time :=
  match getnum value false with
  | none => none
  | some (hour, v1) =>
    if 24 ≤ hour then none
    else
      match skip v1 ':' with
      | none => none
      | some v2 =>
        match getnum v2 true with
        | none => none
        | some (min, v3) =>
          if 60 ≤ min then none
          else if v3 ≠ [] then none
          else some ⟨0, 1, 1, hour, min⟩

/-- The call `time.Parse("2006-01-02", value)`: the time and whether an error is returned;
with an error the time is `Time{}`. -/
def ParseDate (value : String) : Time × Bool :=
  match parseDate value.data with
  | some t => (t, false)
  | none => (Time.zero, true)

/-- The call `time.Parse("15:04", value)`: the time and whether an error is returned;
with an error the time is `Time{}`. -/
def ParseClock (value : String) : Time × Bool :=
  match parseClock value.data with
  | some t => (t, false)
  | none => (Time.zero, true)

/-! ## The program -/

/-- Item represents an individual item on the receipt with a description and price. -/
structure Item where
  ShortDescription : String
  Price : String
  deriving DecidableEq, Repr

/-- Receipt represents the structure of a receipt. -/
structure Receipt where
  Retailer : String
  PurchaseDate : String
  PurchaseTime : String
  Total : String
  Items : List Item
  deriving DecidableEq, Repr

/-- Two's-complement reduction of an integer to the 64-bit Go `int`. -/
def wrapInt (x : Int) : Int := Int.bmod x (2 ^ 64)

/-- The character class `[a-zA-Z0-9]`. -/
def alnumClass (c : Char) : Bool :=
  (decide ('a' ≤ c) && decide (c ≤ 'z')) || (decide ('A' ≤ c) && decide (c ≤ 'Z'))
    || (decide ('0' ≤ c) && decide (c ≤ '9'))

/-- The call `re.FindAllString(s, -1)` for the one-character class `[a-zA-Z0-9]`: the
successive non-overlapping matches, from left to right. -/
def FindAllString : List Char → List String
  | [] => []
  | c :: s => if alnumClass c then String.singleton c :: FindAllString s else FindAllString s

/-- countAlphanumeric counts the number of alphanumeric characters in a given string. -/
def countAlphanumeric (s : String) : Int := ((FindAllString s.data).length : Nat)

/-- Rule 1: one point for every alphanumeric character in the retailer name. -/
def rule1 (receipt : Receipt) (points : Int) : Int :=
  wrapInt (points + countAlphanumeric receipt.Retailer)

/-- Rule 2: 50 points if `math.Mod(total, 1.0) == 0`. -/
def rule2 (total : F64) (points : Int) : Int :=
  if F64.eq (F64.Mod total F64.one) F64.zero then wrapInt (points + 50) else points

/-- Rule 3: 25 points if `math.Mod(total, 0.25) == 0`. -/
def rule3 (total : F64) (points : Int) : Int :=
  if F64.eq (F64.Mod total F64.quarter) F64.zero then wrapInt (points + 25) else points

/-- Rule 4: `(len(receipt.Items) / 2) * 5` points. -/
def rule4 (receipt : Receipt) (points : Int) : Int :=
  wrapInt (points + wrapInt (((receipt.Items.length / 2 : Nat) : Int) * 5))

/-- The body of the loop of rule 5 for one item. -/
def rule5Item (points : Int) (item : Item) : Int :=
  let trimmedDesc := TrimSpace item.ShortDescription
  if len trimmedDesc % 3 = 0 then
    let price := (ParseFloat item.Price).1
    wrapInt (points + F64.toInt (F64.Ceil (F64.mul price F64.pointTwo)))
  else points

/-- Rule 5: the loop over the items. -/
def rule5 (receipt : Receipt) (points : Int) : Int :=
  receipt.Items.foldl rule5Item points

/-- Rule 6: 6 points if the day of the purchase date is odd. -/
def rule6 (receipt : Receipt) (points : Int) : Int :=
  let purchaseDate := (ParseDate receipt.PurchaseDate).1
  if purchaseDate.Day % 2 ≠ 0 then wrapInt (points + 6) else points

/-- Rule 7: 10 points if the purchase time is between 2:00 PM and 4:00 PM. -/
def rule7 (receipt : Receipt) (points : Int) : Int :=
  let purchaseTime := (ParseClock receipt.PurchaseTime).1
  if purchaseTime.Hour ≥ 14 ∧ purchaseTime.Hour < 16 then wrapInt (points + 10) else points

/-- calculatePoints calculates the total points for a given receipt based on predefined rules. -/
def calculatePoints (receipt : Receipt) : Int :=
  let points := 0
  let points := rule1 receipt points
  let total := (ParseFloat receipt.Total).1
  let points := rule2 total points
  let points := rule3 total points
  let points := rule4 receipt points
  let points := rule5 receipt points
  let points := rule6 receipt points
  let points := rule7 receipt points
  points

/-! ## The store and the handlers -/

/-- ReceiptStore holds receipts and their associated points in memory: the map
`receipts map[string]int`, a key being absent where the function gives `none`.  The embedded
`sync.Mutex` only matters to concurrent callers and is not represented. -/
structure ReceiptStore where
  receipts : String → Option Int

/-- The initial in-memory store, `make(map[string]int)`. -/
def store : ReceiptStore := ⟨fun _ => none⟩

/-- The assignment `store.receipts[id] = points`. -/
def ReceiptStore.set (s : ReceiptStore) (id : String) (points : Int) : ReceiptStore :=
  ⟨fun k => if k = id then some points else s.receipts k⟩

/-- The lookup `points, exists := store.receipts[id]`: for an absent key the value is the
zero value `0` and `exists` is false. -/
def ReceiptStore.get (s : ReceiptStore) (id : String) : Int × Bool :=
  match s.receipts id with
  | some points => (points, true)
  | none => (0, false)

/-- What a handler reads of an `*http.Request`: the method, `r.URL.Path`, and what
`json.NewDecoder(r.Body).Decode(&receipt)` makes of the body (`none` when it returns an
error). -/
structure Request where
  Method : String
  Path : String
  Body : Option Receipt

/-- What a handler writes: `http.Error(w, error, code)`, or the JSON object `{"id": id}`, or
the JSON object `{"points": points}` (both with status 200). -/
inductive Response where
  | Error (error : String) (code : Nat) : Response
  | Id (id : String) : Response
  | Points (points : Int) : Response
  deriving DecidableEq, Repr

/-- The constant `http.StatusMethodNotAllowed`. -/
def StatusMethodNotAllowed : Nat := 405

/-- The constant `http.StatusBadRequest`. -/
def StatusBadRequest : Nat := 400

/-- The constant `http.StatusNotFound`. -/
def StatusNotFound : Nat := 404

/-- The function `strings.TrimPrefix`: `s` without the leading `pre`, or `s` itself. -/
def TrimPrefix (s pre : String) : String :=
  if pre.data.isPrefixOf s.data then ⟨s.data.drop pre.data.length⟩ else s

/-- The function `strings.TrimSuffix`: `s` without the trailing `suf`, or `s` itself. -/
def TrimSuffix (s suf : String) : String :=
  if suf.data.isSuffixOf s.data then ⟨s.data.take (s.data.length - suf.data.length)⟩ else s

/-- processReceiptHandler handles the /receipts/process endpoint, which accepts a JSON
receipt, calculates points, generates an ID for the receipt, and stores it in memory.
`uuid` is the string `uuid.New().String()` returns in this call. -/
def processReceiptHandler (s : ReceiptStore) (uuid : String) (r : Request) :
    ReceiptStore × Response :=
  if r.Method ≠ "POST" then
    (s, Response.Error "Invalid request method" StatusMethodNotAllowed)
  else
    match r.Body with
    | none => (s, Response.Error "Invalid JSON" StatusBadRequest)
    | some receipt =>
      let id := uuid
      let points := calculatePoints receipt
      (s.set id points, Response.Id id)

/-- getPointsHandler handles the /receipts/{id}/points endpoint, which retrieves the points
for a specific receipt ID. -/
def getPointsHandler (s : ReceiptStore) (r : Request) : ReceiptStore × Response :=
  let id := TrimPrefix r.Path "/receipts/"
  let id := TrimSuffix id "/points"
  match s.get id with
  | (points, found) =>
    if !found then (s, Response.Error "Receipt not found" StatusNotFound)
    else (s, Response.Points points)

/-- The store after a sequence of insertions `store.receipts[id] = points`, first to last. -/
def insertAll (s : ReceiptStore) (entries : List (String × Int)) : ReceiptStore :=
  entries.foldl (fun t e => t.set e.1 e.2) s

/-- One call of a handler: a request to `processReceiptHandler` together with the string
`uuid.New().String()` returns if the handler gets to line 69, or a request to
`getPointsHandler`. -/
inductive Call where
  | process (uuid : String) (r : Request) : Call
  | points (r : Request) : Call

/-- The store after one call. -/
def Call.run (s : ReceiptStore) : Call → ReceiptStore
  | Call.process uuid r => (processReceiptHandler s uuid r).1
  | Call.points r => (getPointsHandler s r).1

/-- The store after a sequence of calls, first to last. -/
def serve (s : ReceiptStore) (calls : List Call) : ReceiptStore :=
  calls.foldl Call.run s

/-- The identifier a call draws from `uuid.New()`: `processReceiptHandler` calls it only
after the method check and the decoding have passed. -/
def Call.drawn : Call → List String
  | Call.process uuid r => if r.Method = "POST" ∧ r.Body.isSome then [uuid] else []
  | Call.points _ => []

/-- The identifiers drawn from `uuid.New()` during a sequence of calls, in order. -/
def drawnIds : List Call → List String
  | [] => []
  | c :: rest => c.drawn ++ drawnIds rest

/-! ## The contribution of each rule

The amount each block of `calculatePoints` adds to `points`, before reduction to 64 bits. -/

/-- The amount rule 1 adds. -/
def retailerPoints (receipt : Receipt) : Int := countAlphanumeric receipt.Retailer

/-- The amount rule 2 adds for a parsed total. -/
def roundDollarPoints (total : F64) : Int :=
  if F64.eq (F64.Mod total F64.one) F64.zero then 50 else 0

/-- The amount rule 3 adds for a parsed total. -/
def quarterPoints (total : F64) : Int :=
  if F64.eq (F64.Mod total F64.quarter) F64.zero then 25 else 0

/-- The amount rule 4 adds. -/
def pairPoints (receipt : Receipt) : Int := ((receipt.Items.length / 2 : Nat) : Int) * 5

/-- The amount the loop body of rule 5 adds for one item. -/
def itemPoints (item : Item) : Int :=
  if len (TrimSpace item.ShortDescription) % 3 = 0 then
    F64.toInt (F64.Ceil (F64.mul (ParseFloat item.Price).1 F64.pointTwo))
  else 0

/-- The amount rule 5 adds: the sum over the items. -/
def descriptionPoints (receipt : Receipt) : Int := (receipt.Items.map itemPoints).sum

/-- The amount rule 6 adds. -/
def oddDayPoints (receipt : Receipt) : Int :=
  if (ParseDate receipt.PurchaseDate).1.Day % 2 ≠ 0 then 6 else 0

/-- The amount rule 7 adds. -/
def afternoonPoints (receipt : Receipt) : Int :=
  if (ParseClock receipt.PurchaseTime).1.Hour ≥ 14 ∧ (ParseClock receipt.PurchaseTime).1.Hour < 16
  then 10 else 0

/-- The sum of the seven contributions in unbounded integers. -/
def exactPoints (receipt : Receipt) : Int :=
  retailerPoints receipt + roundDollarPoints (ParseFloat receipt.Total).1
    + quarterPoints (ParseFloat receipt.Total).1 + pairPoints receipt
    + descriptionPoints receipt + oddDayPoints receipt + afternoonPoints receipt

/-- The function `calculatePoints` without the two blocks that read the total (rules 2 and 3). -/
def withoutTotalRules (receipt : Receipt) : Int :=
  rule7 receipt (rule6 receipt (rule5 receipt (rule4 receipt (rule1 receipt 0))))

/-! ## The calendar, stated independently of package time -/

/-- The number of days of a month of the Gregorian calendar. -/
def monthLength (year month : Nat) : Nat :=
  if month = 2 then
    if year % 400 = 0 ∨ (year % 4 = 0 ∧ year % 100 ≠ 0) then 29 else 28
  else if month = 4 ∨ month = 6 ∨ month = 9 ∨ month = 11 then 30
  else 31

/-! ## Auxiliary definitions for the proofs -/

/-- The number a list of decimal digits denotes. -/
def decimalValue (ds : List Char) : Nat := ds.foldl (fun a c => a * 10 + digitVal c) 0

/-- What the digit loop of `readFloat` does with one decimal digit. -/
def digitStep (st : DigitScan) (c : Char) : DigitScan :=
  if c = '0' ∧ st.nd = 0 then { st with sawdigits := true, dp := st.dp - 1 }
  else { st with sawdigits := true, nd := st.nd + 1, mantissa := st.mantissa * 10 + digitVal c }

/-! ## The score in unbounded integers -/

/-- A finite float64 that is greater than or equal to 0 (`-0` included). -/
def F64.finiteNonNeg : F64 → Bool
  | F64.fin neg m => !neg || decide (m = 0)
  | _ => false

/-- The integer a finite, integer-valued float64 denotes, without the limits of `int`:
for `math.Ceil(x)` it is the least integer not below `x`. -/
def F64.ceilInt : F64 → Int
  | F64.fin false m => (((m + unit - 1) / unit : Nat) : Int)
  | F64.fin true m => -(((m / unit : Nat) : Nat) : Int)
  | _ => 0

/-- The amount `ceil(price * 0.2)` of rule 5 for one item as an unbounded integer. -/
def unboundedItemPoints (item : Item) : Int :=
  if len (TrimSpace item.ShortDescription) % 3 = 0 then
    F64.ceilInt (F64.mul (ParseFloat item.Price).1 F64.pointTwo)
  else 0

/-- The point total as an unbounded integer: the sum of the seven contributions, each item
counted with `unboundedItemPoints`. -/
def unboundedPoints (receipt : Receipt) : Int :=
  retailerPoints receipt + roundDollarPoints (ParseFloat receipt.Total).1
    + quarterPoints (ParseFloat receipt.Total).1 + pairPoints receipt
    + (receipt.Items.map unboundedItemPoints).sum + oddDayPoints receipt
    + afternoonPoints receipt

/-! ## Arithmetic of the 64-bit `int` -/

theorem wrapInt_range (x : Int) : -(2 ^ 63) ≤ wrapInt x ∧ wrapInt x < 2 ^ 63 := by
  unfold wrapInt
  rw [Int.bmod_def]
  omega

theorem wrapInt_of_range (x : Int) (h1 : -(2 ^ 63) ≤ x) (h2 : x < 2 ^ 63) : wrapInt x = x := by
  unfold wrapInt
  rw [Int.bmod_def]
  omega

theorem wrapInt_idem (x : Int) : wrapInt (wrapInt x) = wrapInt x := by
  unfold wrapInt
  exact Int.bmod_bmod

theorem wrapInt_add_left (x y : Int) : wrapInt (wrapInt x + y) = wrapInt (x + y) := by
  unfold wrapInt
  exact Int.bmod_add_bmod_congr

theorem wrapInt_add_right (x y : Int) : wrapInt (x + wrapInt y) = wrapInt (x + y) := by
  unfold wrapInt
  exact Int.add_bmod_bmod

/-! ## Each block adds its contribution -/

theorem rule1_eq (receipt : Receipt) (p : Int) :
    rule1 receipt p = wrapInt (p + retailerPoints receipt) := rfl

theorem rule2_eq (total : F64) (p : Int) :
    rule2 total (wrapInt p) = wrapInt (p + roundDollarPoints total) := by
  unfold rule2 roundDollarPoints
  split
  · rw [wrapInt_add_left]
  · simp [wrapInt_idem]

theorem rule3_eq (total : F64) (p : Int) :
    rule3 total (wrapInt p) = wrapInt (p + quarterPoints total) := by
  unfold rule3 quarterPoints
  split
  · rw [wrapInt_add_left]
  · simp [wrapInt_idem]

theorem rule4_eq (receipt : Receipt) (p : Int) :
    rule4 receipt (wrapInt p) = wrapInt (p + pairPoints receipt) := by
  unfold rule4 pairPoints
  rw [wrapInt_add_right, wrapInt_add_left]

theorem rule5Item_eq (item : Item) (p : Int) :
    rule5Item (wrapInt p) item = wrapInt (p + itemPoints item) := by
  by_cases h : len (TrimSpace item.ShortDescription) % 3 = 0
  · simp [rule5Item, itemPoints, h, wrapInt_add_left]
  · simp [rule5Item, itemPoints, h, wrapInt_idem]

theorem foldl_rule5Item (items : List Item) (p : Int) :
    items.foldl rule5Item (wrapInt p) = wrapInt (p + (items.map itemPoints).sum) := by
  induction items generalizing p with
  | nil => simp [wrapInt_idem]
  | cons item rest ih =>
    rw [List.foldl_cons, rule5Item_eq, ih, List.map_cons, List.sum_cons, add_assoc]

theorem rule5_eq (receipt : Receipt) (p : Int) :
    rule5 receipt (wrapInt p) = wrapInt (p + descriptionPoints receipt) :=
  foldl_rule5Item receipt.Items p

theorem rule6_eq (receipt : Receipt) (p : Int) :
    rule6 receipt (wrapInt p) = wrapInt (p + oddDayPoints receipt) := by
  unfold rule6 oddDayPoints
  simp only []
  split
  · rw [wrapInt_add_left]
  · simp [wrapInt_idem]

theorem rule7_eq (receipt : Receipt) (p : Int) :
    rule7 receipt (wrapInt p) = wrapInt (p + afternoonPoints receipt) := by
  unfold rule7 afternoonPoints
  simp only []
  split
  · rw [wrapInt_add_left]
  · simp [wrapInt_idem]

/-- The score is the 64-bit reduction of the sum of the seven contributions. -/
theorem calculatePoints_eq_wrap (receipt : Receipt) :
    calculatePoints receipt = wrapInt (exactPoints receipt) := by
  unfold calculatePoints exactPoints
  simp only []
  rw [rule1_eq, rule2_eq, rule3_eq, rule4_eq, rule5_eq, rule6_eq, rule7_eq, zero_add]

theorem withoutTotalRules_eq_wrap (receipt : Receipt) :
    withoutTotalRules receipt = wrapInt (retailerPoints receipt + pairPoints receipt
      + descriptionPoints receipt + oddDayPoints receipt + afternoonPoints receipt) := by
  unfold withoutTotalRules
  rw [rule1_eq, rule4_eq, rule5_eq, rule6_eq, rule7_eq, zero_add]

/-! ## Rule 1: the retailer name -/

theorem alnumClass_eq_isAlphanum (c : Char) : alnumClass c = c.isAlphanum := by
  simp only [alnumClass, Char.isAlphanum, Char.isAlpha, Char.isUpper, Char.isLower, Char.isDigit,
    Char.le_def, ge_iff_le]
  rw [Bool.or_comm (decide ('a'.val ≤ c.val) && decide (c.val ≤ 'z'.val))]
  rfl

theorem FindAllString_length (s : List Char) :
    (FindAllString s).length = s.countP Char.isAlphanum := by
  induction s with
  | nil => rfl
  | cons c t ih =>
    by_cases h : alnumClass c
    · have h' : c.isAlphanum = true := by rw [← alnumClass_eq_isAlphanum]; exact h
      simp [FindAllString, h, h', ih]
    · have h' : ¬ c.isAlphanum = true := by rw [← alnumClass_eq_isAlphanum]; exact h
      simp [FindAllString, h, h', ih]

theorem length_le_utf8 (s : List Char) : s.length ≤ (s.map Char.utf8Size).sum := by
  induction s with
  | nil => simp
  | cons c t ih =>
    have := Char.utf8Size_pos c
    simp only [List.length_cons, List.map_cons, List.sum_cons]
    omega

theorem countAlphanumeric_le_len (s : String) : countAlphanumeric s ≤ (len s : Int) := by
  unfold countAlphanumeric len
  rw [FindAllString_length]
  have h1 := List.countP_le_length Char.isAlphanum (l := s.data)
  have h2 := length_le_utf8 s.data
  exact_mod_cast h1.trans h2

theorem countAlphanumeric_nonneg (s : String) : 0 ≤ countAlphanumeric s := by
  unfold countAlphanumeric
  exact Int.ofNat_nonneg _

/-! ## Bounds on the fixed bonuses -/

theorem roundDollarPoints_cases (total : F64) :
    roundDollarPoints total = 0 ∨ roundDollarPoints total = 50 := by
  unfold roundDollarPoints
  split <;> simp

theorem quarterPoints_cases (total : F64) :
    quarterPoints total = 0 ∨ quarterPoints total = 25 := by
  unfold quarterPoints
  split <;> simp

theorem oddDayPoints_cases (receipt : Receipt) :
    oddDayPoints receipt = 0 ∨ oddDayPoints receipt = 6 := by
  unfold oddDayPoints
  split <;> simp

theorem afternoonPoints_cases (receipt : Receipt) :
    afternoonPoints receipt = 0 ∨ afternoonPoints receipt = 10 := by
  unfold afternoonPoints
  split <;> simp

theorem descriptionPoints_eq_zero (items : List Item)
    (h : ∀ item ∈ items, len (TrimSpace item.ShortDescription) % 3 ≠ 0) :
    (items.map itemPoints).sum = 0 := by
  induction items with
  | nil => rfl
  | cons item rest ih =>
    have h1 : itemPoints item = 0 := by
      unfold itemPoints
      rw [if_neg (h item (List.mem_cons_self _ _))]
    have h2 := ih (fun i hi => h i (List.mem_cons_of_mem _ hi))
    rw [List.map_cons, List.sum_cons, h1, h2]
    rfl

/-! ## The claims about rules 1, 2, 3 and 4 -/

/-- C9: for every string `s`, `countAlphanumeric s` is the number of characters of `s` that
are an ASCII letter or an ASCII digit (`Char.isAlphanum`), so other characters add nothing;
it lies between 0 and the length of `s` (in characters, hence also in bytes); and it is what
rule 1 adds to the score: the block adds it to `points`, and the score of a receipt is the
score of the same receipt with an empty retailer name plus this count (in 64-bit arithmetic,
and exactly so whenever the sum stays below `2^63`). -/
theorem countAlphanumeric_counts_ascii_alnum (s : String) :
    countAlphanumeric s = (s.data.countP Char.isAlphanum : Nat)
    ∧ 0 ≤ countAlphanumeric s
    ∧ countAlphanumeric s ≤ (s.length : Nat)
    ∧ s.length ≤ len s
    ∧ countAlphanumeric "é ñ-!\t" = 0
    ∧ countAlphanumeric "M&M Corner Market" = 14
    ∧ (∀ (receipt : Receipt) (points : Int),
        rule1 receipt points = wrapInt (points + countAlphanumeric receipt.Retailer))
    ∧ (∀ receipt : Receipt, calculatePoints receipt
        = wrapInt (calculatePoints { receipt with Retailer := "" }
            + countAlphanumeric receipt.Retailer))
    ∧ (∀ receipt : Receipt,
        calculatePoints { receipt with Retailer := "" } + countAlphanumeric receipt.Retailer
          < 2 ^ 63 →
        calculatePoints receipt = calculatePoints { receipt with Retailer := "" }
            + countAlphanumeric receipt.Retailer) := by
  have hw : ∀ receipt : Receipt, calculatePoints receipt
        = wrapInt (calculatePoints { receipt with Retailer := "" }
            + countAlphanumeric receipt.Retailer) := by
    intro receipt
    rw [calculatePoints_eq_wrap, calculatePoints_eq_wrap, wrapInt_add_left]
    congr 1
    have h0 : countAlphanumeric "" = 0 := by decide
    simp only [exactPoints, retailerPoints, pairPoints, descriptionPoints, oddDayPoints,
      afternoonPoints, h0]
    ring
  refine ⟨?_, countAlphanumeric_nonneg s, ?_, length_le_utf8 s.data, by decide, by decide,
    fun _ _ => rfl, hw, ?_⟩
  · unfold countAlphanumeric
    rw [FindAllString_length]
  · unfold countAlphanumeric
    rw [FindAllString_length]
    exact_mod_cast List.countP_le_length Char.isAlphanum (l := s.data)
  · intro receipt h
    rw [hw receipt]
    apply wrapInt_of_range _ _ h
    have h1 := (wrapInt_range (exactPoints { receipt with Retailer := "" })).1
    rw [← calculatePoints_eq_wrap] at h1
    have h2 := countAlphanumeric_nonneg receipt.Retailer
    omega

/-- C7: for every total string, a total that earns the 50-point round-dollar bonus also
earns the 25-point quarter bonus; together rules 2 and 3 add 0, 25 or 75 points, never 50;
the score is the score without the two total rules plus that amount (in 64-bit
arithmetic); and for the total "9.00" the amount is 75. -/
theorem round_dollar_implies_quarter (receipt : Receipt) :
    (roundDollarPoints (ParseFloat receipt.Total).1 = 50 →
      quarterPoints (ParseFloat receipt.Total).1 = 25)
    ∧ (roundDollarPoints (ParseFloat receipt.Total).1
          + quarterPoints (ParseFloat receipt.Total).1 = 0
        ∨ roundDollarPoints (ParseFloat receipt.Total).1
          + quarterPoints (ParseFloat receipt.Total).1 = 25
        ∨ roundDollarPoints (ParseFloat receipt.Total).1
          + quarterPoints (ParseFloat receipt.Total).1 = 75)
    ∧ roundDollarPoints (ParseFloat receipt.Total).1
          + quarterPoints (ParseFloat receipt.Total).1 ≠ 50
    ∧ calculatePoints receipt = wrapInt (withoutTotalRules receipt
        + (roundDollarPoints (ParseFloat receipt.Total).1
          + quarterPoints (ParseFloat receipt.Total).1))
    ∧ rule3 (ParseFloat receipt.Total).1 (rule2 (ParseFloat receipt.Total).1 0)
        = roundDollarPoints (ParseFloat receipt.Total).1
          + quarterPoints (ParseFloat receipt.Total).1
    ∧ roundDollarPoints (ParseFloat "9.00").1 + quarterPoints (ParseFloat "9.00").1 = 75 := by
  have key : roundDollarPoints (ParseFloat receipt.Total).1 = 50 →
      quarterPoints (ParseFloat receipt.Total).1 = 25 := by
    generalize (ParseFloat receipt.Total).1 = total
    intro h
    cases total with
    | nan => simp [roundDollarPoints, F64.Mod, F64.eq] at h
    | inf neg => simp [roundDollarPoints, F64.Mod, F64.one, F64.eq] at h
    | fin neg m =>
      have hu : unit ≠ 0 := by unfold unit; positivity
      have hm : m % unit = 0 := by
        by_contra hne
        simp [roundDollarPoints, F64.Mod, F64.one, F64.eq, F64.zero, hu, hne] at h
      have hq : m % quarterUnit = 0 := by
        have h4 : unit = quarterUnit * 4 := by
          unfold unit quarterUnit
          rw [show (1074 : Nat) = 1072 + 2 from rfl, pow_add, show (2 : Nat) ^ 2 = 4 from rfl]
        rw [h4] at hm
        exact Nat.mod_eq_zero_of_dvd (Dvd.dvd.trans (Dvd.intro _ rfl) (Nat.dvd_of_mod_eq_zero hm))
      have hq0 : quarterUnit ≠ 0 := by unfold quarterUnit; positivity
      simp [quarterPoints, F64.Mod, F64.quarter, F64.eq, F64.zero, hq, hq0]
  have hr := roundDollarPoints_cases (ParseFloat receipt.Total).1
  have hq := quarterPoints_cases (ParseFloat receipt.Total).1
  refine ⟨key, ?_, ?_, ?_, ?_, by decide!⟩
  · rcases hr with h | h <;> rcases hq with h' | h'
    · left; rw [h, h']; rfl
    · right; left; rw [h, h']; rfl
    · rw [key h] at h'; simp at h'
    · right; right; rw [h, h']; rfl
  · rcases hr with h | h
    · rcases hq with h' | h' <;> rw [h, h'] <;> decide
    · rw [h, key h]; decide
  · rw [calculatePoints_eq_wrap, withoutTotalRules_eq_wrap, wrapInt_add_left]
    congr 1
    unfold exactPoints
    ring
  · have h0 : (0 : Int) = wrapInt 0 := by decide
    rw [h0, rule2_eq, rule3_eq, zero_add]
    apply wrapInt_of_range <;> rcases hr with h | h <;> rcases hq with h' | h' <;>
      rw [h, h'] <;> decide

/-- C10: for every receipt in which no item's trimmed description has a length that is a
multiple of 3, the score is the score of the same receipt with an empty item list plus
`5 * floor(n / 2)`, `n` the number of items (in 64-bit arithmetic, and exactly so for
every receipt whose retailer name and item list are shorter than `2^60`); an odd
remaining item adds nothing: `n = 2k + 1` items earn what `2k` items earn. -/
theorem item_pair_bonus (receipt : Receipt)
    (h : ∀ item ∈ receipt.Items, len (TrimSpace item.ShortDescription) % 3 ≠ 0) :
    calculatePoints receipt
      = wrapInt (calculatePoints { receipt with Items := [] }
          + 5 * ((receipt.Items.length / 2 : Nat) : Int))
    ∧ (len receipt.Retailer < 2 ^ 60 → receipt.Items.length < 2 ^ 60 →
        calculatePoints receipt
          = calculatePoints { receipt with Items := [] }
            + 5 * ((receipt.Items.length / 2 : Nat) : Int))
    ∧ pairPoints receipt = 5 * ((receipt.Items.length / 2 : Nat) : Int)
    ∧ (∀ k : Nat, receipt.Items.length = 2 * k + 1 → pairPoints receipt = 5 * (k : Int)) := by
  have hd : descriptionPoints receipt = 0 := descriptionPoints_eq_zero receipt.Items h
  have hp : pairPoints receipt = 5 * ((receipt.Items.length / 2 : Nat) : Int) := by
    unfold pairPoints
    ring
  have e0 : exactPoints { receipt with Items := [] }
      = retailerPoints receipt + roundDollarPoints (ParseFloat receipt.Total).1
        + quarterPoints (ParseFloat receipt.Total).1 + oddDayPoints receipt
        + afternoonPoints receipt := by
    simp [exactPoints, retailerPoints, oddDayPoints, afternoonPoints, pairPoints,
      descriptionPoints]
  have he : exactPoints receipt = exactPoints { receipt with Items := [] }
      + 5 * ((receipt.Items.length / 2 : Nat) : Int) := by
    rw [e0]
    unfold exactPoints
    rw [hd, hp]
    ring
  refine ⟨?_, ?_, hp, ?_⟩
  · rw [calculatePoints_eq_wrap, calculatePoints_eq_wrap, wrapInt_add_left, he]
  · intro hr hn
    have h1 := countAlphanumeric_le_len receipt.Retailer
    have h2 := countAlphanumeric_nonneg receipt.Retailer
    have h3 := roundDollarPoints_cases (ParseFloat receipt.Total).1
    have h4 := quarterPoints_cases (ParseFloat receipt.Total).1
    have h5 := oddDayPoints_cases receipt
    have h6 := afternoonPoints_cases receipt
    have hr' : (len receipt.Retailer : Int) < 2 ^ 60 := by exact_mod_cast hr
    have hn' : ((receipt.Items.length / 2 : Nat) : Int) < 2 ^ 60 := by
      have : receipt.Items.length / 2 < 2 ^ 60 := by omega
      exact_mod_cast this
    have hn0 : (0 : Int) ≤ ((receipt.Items.length / 2 : Nat) : Int) := Int.ofNat_nonneg _
    have hR : retailerPoints receipt = countAlphanumeric receipt.Retailer := rfl
    rw [calculatePoints_eq_wrap, calculatePoints_eq_wrap, he, e0, hR]
    rw [wrapInt_of_range, wrapInt_of_range] <;>
      rcases h3 with h3 | h3 <;> rcases h4 with h4 | h4 <;> rcases h5 with h5 | h5 <;>
      rcases h6 with h6 | h6 <;> rw [h3, h4, h5, h6] <;> omega
  · intro k hk
    rw [hp, hk]
    have : (2 * k + 1) / 2 = k := by omega
    rw [this]

/-- A receipt with three items, none with a description length divisible by 3: the pair
bonus is 5, the score 20. -/
theorem item_pair_bonus_witness :
    (∀ item ∈ (⟨"Shop", "2022-01-02", "13:01", "6.49",
        [⟨"ab", "1.00"⟩, ⟨"abcd", "2.00"⟩, ⟨"a", "3.00"⟩]⟩ : Receipt).Items,
      len (TrimSpace item.ShortDescription) % 3 ≠ 0)
    ∧ calculatePoints ⟨"Shop", "2022-01-02", "13:01", "6.49",
        [⟨"ab", "1.00"⟩, ⟨"abcd", "2.00"⟩, ⟨"a", "3.00"⟩]⟩
      = wrapInt (calculatePoints ⟨"Shop", "2022-01-02", "13:01", "6.49", []⟩
          + 5 * ((3 / 2 : Nat) : Int)) :=
  ⟨by decide, (item_pair_bonus ⟨"Shop", "2022-01-02", "13:01", "6.49",
        [⟨"ab", "1.00"⟩, ⟨"abcd", "2.00"⟩, ⟨"a", "3.00"⟩]⟩ (by decide)).1⟩

/-! ## What `ParseFloat` returns with an error -/

theorem packRounded_error (neg : Bool) (m : Nat) :
    (packRounded neg m).2 = none
    ∨ ((packRounded neg m).2 = some NumError.ErrRange ∧ (packRounded neg m).1 = F64.inf neg) := by
  unfold packRounded
  split <;> simp

theorem decimalToF64_error (neg : Bool) (mantissa nd : Nat) (dp : Int) :
    (decimalToF64 neg mantissa nd dp).2 = none
    ∨ ((decimalToF64 neg mantissa nd dp).2 = some NumError.ErrRange
        ∧ (decimalToF64 neg mantissa nd dp).1 = F64.inf neg) := by
  unfold decimalToF64
  split
  · simp
  · split
    · simp
    · split
      · simp
      · split <;> exact packRounded_error _ _

theorem atofHex_error (neg : Bool) (mantissa nd : Nat) (dp : Int) :
    (atofHex neg mantissa nd dp).2 = none
    ∨ ((atofHex neg mantissa nd dp).2 = some NumError.ErrRange
        ∧ (atofHex neg mantissa nd dp).1 = F64.inf neg) := by
  unfold atofHex
  split <;> exact packRounded_error _ _

theorem atof64_error (s : List Char) :
    ((atof64 s).2.2 = some NumError.ErrSyntax → (atof64 s).1 = F64.zero)
    ∧ ((atof64 s).2.2 = some NumError.ErrRange → ∃ neg, (atof64 s).1 = F64.inf neg) := by
  unfold atof64
  cases special s with
  | some v => simp
  | none =>
    cases readFloat s with
    | none => simp
    | some p =>
      by_cases hx : p.hex
      · rcases atofHex_error p.neg p.mantissa p.nd p.dp with h | ⟨h1, h2⟩
        · simp [hx, h]
        · simp [hx, h1, h2]
      · rcases decimalToF64_error p.neg p.mantissa p.nd p.dp with h | ⟨h1, h2⟩
        · simp [hx, h]
        · simp [hx, h1, h2]

/-- With a syntax error `ParseFloat` returns the value `0`. -/
theorem ParseFloat_syntax_error (s : String) (h : (ParseFloat s).2 = some NumError.ErrSyntax) :
    (ParseFloat s).1 = F64.zero := by
  have ha := (atof64_error s.data).1
  unfold ParseFloat at h ⊢
  rcases hr : atof64 s.data with ⟨f, rest, err⟩
  rw [hr] at h ha
  simp only at h ha ⊢
  split_ifs at h ⊢ with hc
  · rfl
  · exact ha h

/-- With a range error `ParseFloat` returns an infinity. -/
theorem ParseFloat_range_error (s : String) (h : (ParseFloat s).2 = some NumError.ErrRange) :
    ∃ neg, (ParseFloat s).1 = F64.inf neg := by
  have ha := (atof64_error s.data).2
  unfold ParseFloat at h ⊢
  rcases hr : atof64 s.data with ⟨f, rest, err⟩
  rw [hr] at h ha
  simp only at h ha ⊢
  split_ifs at h ⊢ with hc
  · simp at h
  · exact ha h

theorem totalPoints_zero :
    roundDollarPoints F64.zero = 50 ∧ quarterPoints F64.zero = 25 := by
  have hu : unit ≠ 0 := by unfold unit; positivity
  have hq : quarterUnit ≠ 0 := by unfold quarterUnit; positivity
  constructor
  · simp [roundDollarPoints, F64.Mod, F64.one, F64.zero, F64.eq, hu]
  · simp [quarterPoints, F64.Mod, F64.quarter, F64.zero, F64.eq, hq]

theorem totalPoints_inf (neg : Bool) :
    roundDollarPoints (F64.inf neg) = 0 ∧ quarterPoints (F64.inf neg) = 0 := by
  constructor
  · simp [roundDollarPoints, F64.Mod, F64.one, F64.eq]
  · simp [quarterPoints, F64.Mod, F64.quarter, F64.eq]

theorem calculatePoints_eq_withoutTotalRules (receipt : Receipt) :
    calculatePoints receipt = wrapInt (withoutTotalRules receipt
      + (roundDollarPoints (ParseFloat receipt.Total).1
        + quarterPoints (ParseFloat receipt.Total).1)) := by
  rw [calculatePoints_eq_wrap, withoutTotalRules_eq_wrap, wrapInt_add_left]
  congr 1
  unfold exactPoints
  ring

/-! ## The claims about fields that fail to parse -/

/-- C2, as the code has it: for every receipt whose total fails to parse, with a syntax
error (such as "abc" or the empty string) the total is `0`, which is a round dollar amount
and a multiple of 0.25: both the 50-point and the 25-point bonus are awarded, and the score
is the score without rules 2 and 3 plus 75 (in 64-bit arithmetic); with a range error the
total is an infinity, neither bonus is awarded, and the score is the score without rules 2
and 3. -/
theorem unparseable_total_points (receipt : Receipt) (e : NumError)
    (h : (ParseFloat receipt.Total).2 = some e) :
    (e = NumError.ErrSyntax →
      (ParseFloat receipt.Total).1 = F64.zero
      ∧ roundDollarPoints (ParseFloat receipt.Total).1 = 50
      ∧ quarterPoints (ParseFloat receipt.Total).1 = 25
      ∧ calculatePoints receipt = wrapInt (withoutTotalRules receipt + 75))
    ∧ (e = NumError.ErrRange →
      (∃ neg, (ParseFloat receipt.Total).1 = F64.inf neg)
      ∧ roundDollarPoints (ParseFloat receipt.Total).1 = 0
      ∧ quarterPoints (ParseFloat receipt.Total).1 = 0
      ∧ calculatePoints receipt = withoutTotalRules receipt) := by
  constructor
  · intro he
    subst he
    have hz := ParseFloat_syntax_error receipt.Total h
    have hc := calculatePoints_eq_withoutTotalRules receipt
    rw [hz, totalPoints_zero.1, totalPoints_zero.2] at hc
    rw [hz]
    exact ⟨rfl, totalPoints_zero.1, totalPoints_zero.2, hc⟩
  · intro he
    subst he
    obtain ⟨neg, hz⟩ := ParseFloat_range_error receipt.Total h
    have hc := calculatePoints_eq_withoutTotalRules receipt
    rw [hz, (totalPoints_inf neg).1, (totalPoints_inf neg).2] at hc
    rw [hz]
    refine ⟨⟨neg, rfl⟩, (totalPoints_inf neg).1, (totalPoints_inf neg).2, ?_⟩
    rw [hc, withoutTotalRules_eq_wrap]
    simp [wrapInt_idem]

/-- The total "abc" fails with a syntax error and the receipt scores 75 more than without
rules 2 and 3. -/
theorem unparseable_total_points_witness :
    (ParseFloat (⟨"", "2022-01-02", "", "abc", []⟩ : Receipt).Total).2
      = some NumError.ErrSyntax
    ∧ calculatePoints ⟨"", "2022-01-02", "", "abc", []⟩
      = wrapInt (withoutTotalRules ⟨"", "2022-01-02", "", "abc", []⟩ + 75) :=
  ⟨by decide, ((unparseable_total_points ⟨"", "2022-01-02", "", "abc", []⟩
      NumError.ErrSyntax (by decide)).1 rfl).2.2.2⟩

/-- C2 as stated fails: the totals "abc" and "" do not parse, yet the receipt earns the
50-point and the 25-point bonus; its score is 75 and not the sum of the other five rules,
which is 0. -/
theorem unparseable_total_counterexample :
    (ParseFloat "abc").2 = some NumError.ErrSyntax
    ∧ (ParseFloat "").2 = some NumError.ErrSyntax
    ∧ calculatePoints ⟨"", "2022-01-02", "", "abc", []⟩ = 75
    ∧ calculatePoints ⟨"", "2022-01-02", "", "", []⟩ = 75
    ∧ withoutTotalRules ⟨"", "2022-01-02", "", "abc", []⟩ = 0
    ∧ calculatePoints ⟨"", "2022-01-02", "", "abc", []⟩
        ≠ withoutTotalRules ⟨"", "2022-01-02", "", "abc", []⟩ := by
  decide!

/-- C3, as the code has it: for every receipt whose purchaseDate fails to parse,
`time.Parse` returns the zero time, January 1 of year 1, whose day is 1 and odd: rule 6
adds its 6 points, and the receipt scores what it scores with the date "0001-01-01", which
is 6 more (in 64-bit arithmetic) than with the even date "2022-01-02". -/
theorem unparseable_date_points (receipt : Receipt)
    (h : (ParseDate receipt.PurchaseDate).2 = true) :
    (ParseDate receipt.PurchaseDate).1 = Time.zero
    ∧ (ParseDate receipt.PurchaseDate).1.Day = 1
    ∧ oddDayPoints receipt = 6
    ∧ (∀ points : Int, rule6 receipt points = wrapInt (points + 6))
    ∧ calculatePoints receipt = calculatePoints { receipt with PurchaseDate := "0001-01-01" }
    ∧ calculatePoints receipt
        = wrapInt (calculatePoints { receipt with PurchaseDate := "2022-01-02" } + 6) := by
  have hz : (ParseDate receipt.PurchaseDate).1 = Time.zero := by
    unfold ParseDate at h ⊢
    cases hp : parseDate receipt.PurchaseDate.data with
    | none => rfl
    | some t => rw [hp] at h; simp at h
  have ho : oddDayPoints receipt = 6 := by
    unfold oddDayPoints
    rw [hz]
    rfl
  have h1 : oddDayPoints { receipt with PurchaseDate := "0001-01-01" } = 6 := by
    unfold oddDayPoints
    have : (ParseDate "0001-01-01").1.Day = 1 := by decide
    simp only [this]
    rfl
  have h2 : oddDayPoints { receipt with PurchaseDate := "2022-01-02" } = 0 := by
    unfold oddDayPoints
    have : (ParseDate "2022-01-02").1.Day = 2 := by decide
    simp only [this]
    rfl
  refine ⟨hz, by rw [hz]; rfl, ho, ?_, ?_, ?_⟩
  · intro points
    unfold rule6
    rw [hz]
    rfl
  · rw [calculatePoints_eq_wrap, calculatePoints_eq_wrap]
    congr 1
    unfold exactPoints
    rw [ho, h1]
    rfl
  · rw [calculatePoints_eq_wrap, calculatePoints_eq_wrap, wrapInt_add_left]
    congr 1
    unfold exactPoints
    rw [ho, h2]
    simp only [retailerPoints, pairPoints, descriptionPoints, afternoonPoints]
    ring

/-- The date "abc" fails to parse and rule 6 adds 6 points. -/
theorem unparseable_date_points_witness :
    (ParseDate (⟨"", "abc", "", "0.01", []⟩ : Receipt).PurchaseDate).2 = true
    ∧ oddDayPoints ⟨"", "abc", "", "0.01", []⟩ = 6 :=
  ⟨by decide, (unparseable_date_points ⟨"", "abc", "", "0.01", []⟩ (by decide)).2.2.1⟩

/-- C3 as stated fails: the dates "abc", "" and "2022-02-30" do not parse, yet rule 6 adds
its 6 points; the receipt with the date "abc" scores 6, with the even date "2022-01-02"
it scores 0. -/
theorem unparseable_date_counterexample :
    (ParseDate "abc").2 = true
    ∧ (ParseDate "").2 = true
    ∧ (ParseDate "2022-02-30").2 = true
    ∧ oddDayPoints ⟨"", "abc", "", "0.01", []⟩ = 6
    ∧ rule6 ⟨"", "abc", "", "0.01", []⟩ 0 = 6
    ∧ calculatePoints ⟨"", "abc", "", "0.01", []⟩ = 6
    ∧ calculatePoints ⟨"", "", "", "0.01", []⟩ = 6
    ∧ calculatePoints ⟨"", "2022-02-30", "", "0.01", []⟩ = 6
    ∧ calculatePoints ⟨"", "2022-01-02", "", "0.01", []⟩ = 0 := by
  decide!

/-- C5, as the code has it: for every item whose price fails to parse with a syntax error,
the price is `0`, `ceil(0 * 0.2)` is `0`, and rule 5 adds exactly 0 points for the item
whatever its description: the loop body leaves a 64-bit `points` unchanged. -/
theorem syntax_error_price_points (item : Item)
    (h : (ParseFloat item.Price).2 = some NumError.ErrSyntax) :
    (ParseFloat item.Price).1 = F64.zero
    ∧ F64.toInt (F64.Ceil (F64.mul (ParseFloat item.Price).1 F64.pointTwo)) = 0
    ∧ itemPoints item = 0
    ∧ (∀ points : Int, rule5Item (wrapInt points) item = wrapInt points) := by
  have hz := ParseFloat_syntax_error item.Price h
  have hc : F64.toInt (F64.Ceil (F64.mul F64.zero F64.pointTwo)) = 0 := by decide!
  have hi : itemPoints item = 0 := by
    unfold itemPoints
    rw [hz, hc]
    simp
  refine ⟨hz, by rw [hz]; exact hc, hi, ?_⟩
  intro points
  rw [rule5Item_eq, hi, add_zero]

/-- The price "abc" fails with a syntax error and the item adds nothing. -/
theorem syntax_error_price_points_witness :
    (ParseFloat (⟨"abc", "abc"⟩ : Item).Price).2 = some NumError.ErrSyntax
    ∧ itemPoints ⟨"abc", "abc"⟩ = 0 :=
  ⟨by decide, (syntax_error_price_points ⟨"abc", "abc"⟩ (by decide)).2.2.1⟩

/-- C5 as stated fails for a price that is out of range: "-1e999" fails to parse with a
range error, the value returned is `-Inf`, not `0`, and the item adds `int(-Inf)`, which is
`-2^63`; the receipt scores `-2^63` instead of 0. -/
theorem out_of_range_price_counterexample :
    ParseFloat "-1e999" = (F64.inf true, some NumError.ErrRange)
    ∧ itemPoints ⟨"", "-1e999"⟩ = -(2 ^ 63)
    ∧ itemPoints ⟨"", "-1e999"⟩ ≠ 0
    ∧ calculatePoints ⟨"", "2022-01-02", "", "0.01", [⟨"", "-1e999"⟩]⟩ = -(2 ^ 63)
    ∧ calculatePoints ⟨"", "2022-01-02", "", "0.01", []⟩ = 0 := by
  decide!

/-! ## Rule 5: the item descriptions -/

/-- C4: for every item, rule 5 adds `int(math.Ceil(price * 0.2))` (`price` the float64
that `ParseFloat` returns, product and ceiling those of float64) when the byte length of the
description without its surrounding white space is a multiple of 3, and nothing otherwise; a
description that is empty after trimming has length 0, a multiple of 3, and does earn the
price-based amount; and the rule-5 part of `calculatePoints` is the sum of these per-item
amounts: the loop adds the sum to `points`, and the score is the sum of the other six
contributions plus it (in 64-bit arithmetic). -/
theorem description_rule_sums_items (receipt : Receipt) :
    (∀ item : Item, len (TrimSpace item.ShortDescription) % 3 = 0 →
        itemPoints item = F64.toInt (F64.Ceil (F64.mul (ParseFloat item.Price).1 F64.pointTwo))
        ∧ ∀ points : Int, rule5Item points item = wrapInt (points
            + F64.toInt (F64.Ceil (F64.mul (ParseFloat item.Price).1 F64.pointTwo))))
    ∧ (∀ item : Item, len (TrimSpace item.ShortDescription) % 3 ≠ 0 →
        itemPoints item = 0 ∧ ∀ points : Int, rule5Item points item = points)
    ∧ (∀ item : Item, TrimSpace item.ShortDescription = "" →
        itemPoints item = F64.toInt (F64.Ceil (F64.mul (ParseFloat item.Price).1 F64.pointTwo)))
    ∧ itemPoints ⟨"   ", "12.00"⟩ = 3
    ∧ itemPoints ⟨"Emils Cheese Pizza", "12.25"⟩ = 3
    ∧ itemPoints ⟨"   Klarbrunn 12-PK 12 FL OZ  ", "12.00"⟩ = 3
    ∧ itemPoints ⟨"Mountain Dew 12PK", "6.49"⟩ = 0
    ∧ (∀ points : Int, rule5 receipt (wrapInt points)
        = wrapInt (points + (receipt.Items.map itemPoints).sum))
    ∧ calculatePoints receipt
        = wrapInt (retailerPoints receipt + roundDollarPoints (ParseFloat receipt.Total).1
            + quarterPoints (ParseFloat receipt.Total).1 + pairPoints receipt
            + oddDayPoints receipt + afternoonPoints receipt
            + (receipt.Items.map itemPoints).sum) := by
  refine ⟨?_, ?_, ?_, by decide!, by decide!, by decide!, by decide!, ?_, ?_⟩
  · intro item h
    constructor
    · unfold itemPoints
      rw [if_pos h]
    · intro points
      unfold rule5Item
      simp only []
      rw [if_pos h]
  · intro item h
    constructor
    · unfold itemPoints
      rw [if_neg h]
    · intro points
      unfold rule5Item
      simp only []
      rw [if_neg h]
  · intro item h
    unfold itemPoints
    rw [h]
    rfl
  · intro points
    exact rule5_eq receipt points
  · rw [calculatePoints_eq_wrap]
    congr 1
    unfold exactPoints descriptionPoints
    ring

/-! ## Rule 7: the purchase time -/

theorem digit_of_val (c : Char) (k : Nat) (hd : isDigit c = true) (hk : digitVal c = k) :
    c = Char.ofNat (k + 48) := by
  unfold isDigit at hd
  unfold digitVal at hk
  simp only [Bool.and_eq_true, decide_eq_true_eq] at hd
  have : c.toNat = k + 48 := by omega
  rw [← this, Char.ofNat_toNat]

theorem digitVal_le (c : Char) (hd : isDigit c = true) : digitVal c ≤ 9 := by
  unfold isDigit at hd
  unfold digitVal
  simp only [Bool.and_eq_true, decide_eq_true_eq] at hd
  omega

theorem getnum_some (s : List Char) (fixed : Bool) (n : Nat) (rest : List Char)
    (h : getnum s fixed = some (n, rest)) :
    (∃ c0 c1, s = c0 :: c1 :: rest ∧ isDigit c0 = true ∧ isDigit c1 = true
        ∧ n = digitVal c0 * 10 + digitVal c1)
    ∨ (fixed = false ∧ ∃ c0, s = c0 :: rest ∧ isDigit c0 = true ∧ n = digitVal c0) := by
  unfold getnum at h
  match s, h with
  | [], h => simp at h
  | [c0], h =>
    by_cases h0 : isDigit c0 = true
    · cases fixed
      · simp [h0] at h
        right
        exact ⟨rfl, c0, by rw [h.2], h0, h.1.symm⟩
      · simp [h0] at h
    · simp [h0] at h
  | c0 :: c1 :: t1, h =>
    by_cases h0 : isDigit c0 = true
    · by_cases h1 : isDigit c1 = true
      · simp [h0, h1] at h
        left
        exact ⟨c0, c1, by rw [h.2], h0, h1, h.1.symm⟩
      · cases fixed
        · simp [h0, h1] at h
          right
          exact ⟨rfl, c0, by rw [h.2], h0, h.1.symm⟩
        · simp [h0, h1] at h
    · simp [h0] at h

theorem getnum_two (c0 c1 : Char) (rest : List Char) (fixed : Bool)
    (h0 : isDigit c0 = true) (h1 : isDigit c1 = true) :
    getnum (c0 :: c1 :: rest) fixed = some (digitVal c0 * 10 + digitVal c1, rest) := by
  simp [getnum, h0, h1]

theorem skip_some (value : List Char) (c : Char) (t : List Char) (h : skip value c = some t) :
    value = c :: t := by
  unfold skip at h
  match value, h with
  | [], h => simp at h
  | v :: t', h =>
    by_cases hv : v = c
    · simp [hv] at h
      rw [hv, h]
    · simp [hv] at h

theorem parseClock_afternoon (value : List Char) :
    (∃ t, parseClock value = some t ∧ 14 ≤ t.hour ∧ t.hour < 16)
    ↔ ∃ h m1 m2, value = ['1', h, ':', m1, m2] ∧ (h = '4' ∨ h = '5')
        ∧ isDigit m1 = true ∧ isDigit m2 = true ∧ digitVal m1 * 10 + digitVal m2 < 60 := by
  constructor
  · rintro ⟨t, ht, h14, h16⟩
    unfold parseClock at ht
    cases hg : getnum value false with
    | none => simp [hg] at ht
    | some p =>
      obtain ⟨hour, v1⟩ := p
      simp only [hg] at ht
      by_cases h24 : 24 ≤ hour
      · simp [h24] at ht
      · simp only [h24, if_false] at ht
        cases hs : skip v1 ':' with
        | none => simp [hs] at ht
        | some v2 =>
          simp only [hs] at ht
          cases hm : getnum v2 true with
          | none => simp [hm] at ht
          | some q =>
            obtain ⟨min, v3⟩ := q
            simp only [hm] at ht
            by_cases h60 : 60 ≤ min
            · simp [h60] at ht
            · simp only [h60, if_false] at ht
              by_cases h3 : v3 ≠ []
              · simp [h3] at ht
              · simp only [h3, if_false, Option.some.injEq] at ht
                have hv3 : v3 = [] := by simpa using h3
                subst hv3
                have hhour : t.hour = hour := by rw [← ht]
                rw [hhour] at h14 h16
                have hv1 := skip_some _ _ _ hs
                rcases getnum_some _ _ _ _ hm with ⟨m1, m2, hv2, hd1, hd2, hmin⟩ | ⟨hf, _⟩
                · rcases getnum_some _ _ _ _ hg with ⟨c0, c1, hv, hc0, hc1, hh⟩ | ⟨_, c0, hv, hc0, hh⟩
                  · have l0 := digitVal_le c0 hc0
                    have l1 := digitVal_le c1 hc1
                    have e0 : digitVal c0 = 1 := by omega
                    have e0' := digit_of_val c0 1 hc0 e0
                    refine ⟨c1, m1, m2, ?_, ?_, hd1, hd2, by omega⟩
                    · rw [hv, hv1, hv2, e0']
                    · have e1 : digitVal c1 = 4 ∨ digitVal c1 = 5 := by omega
                      rcases e1 with e1 | e1
                      · left; exact digit_of_val c1 4 hc1 e1
                      · right; exact digit_of_val c1 5 hc1 e1
                  · have l0 := digitVal_le c0 hc0
                    omega
                · exact absurd hf (by decide)
  · rintro ⟨h, m1, m2, hv, hh, hd1, hd2, hmin⟩
    have h60 : ¬ 60 ≤ digitVal m1 * 10 + digitVal m2 := by omega
    have hm := getnum_two m1 m2 [] true hd1 hd2
    rcases hh with hh | hh
    · subst hh hv
      have hg := getnum_two '1' '4' [':', m1, m2] false (by decide) (by decide)
      rw [show digitVal '1' * 10 + digitVal '4' = 14 from by decide] at hg
      refine ⟨⟨0, 1, 1, 14, digitVal m1 * 10 + digitVal m2⟩, ?_, Nat.le_refl 14, by show 14 < 16; decide⟩
      unfold parseClock
      rw [hg]
      simp [skip, hm, h60]
    · subst hh hv
      have hg := getnum_two '1' '5' [':', m1, m2] false (by decide) (by decide)
      rw [show digitVal '1' * 10 + digitVal '5' = 15 from by decide] at hg
      refine ⟨⟨0, 1, 1, 15, digitVal m1 * 10 + digitVal m2⟩, ?_, by show 14 ≤ 15; decide, by show 15 < 16; decide⟩
      unfold parseClock
      rw [hg]
      simp [skip, hm, h60]

theorem afternoonPoints_eq_ten_iff (receipt : Receipt) :
    afternoonPoints receipt = 10
    ↔ ∃ t, parseClock receipt.PurchaseTime.data = some t ∧ 14 ≤ t.hour ∧ t.hour < 16 := by
  unfold afternoonPoints ParseClock
  cases hp : parseClock receipt.PurchaseTime.data with
  | none => simp [Time.Hour, Time.zero]
  | some t =>
    simp only [Time.Hour, ge_iff_le, Option.some.injEq, exists_eq_left']
    by_cases hc : 14 ≤ t.hour ∧ t.hour < 16
    · simp [hc]
    · simp only [hc, if_false]
      simp

/-- C6: for every receipt, rule 7 adds its 10 points if and only if the purchase time parses
(layout `15:04`) with an hour of 14 or 15, that is if and only if the time reads `14:mm` or
`15:mm` with a minute below 60; otherwise it adds nothing, in particular when the time
fails to parse.  The score is the score with an empty purchase time plus this amount (in
64-bit arithmetic).  "14:00" and "15:59" earn the bonus, "16:00" and "13:59" do not. -/
theorem afternoon_window_bonus (receipt : Receipt) :
    (afternoonPoints receipt = 10
      ↔ ∃ t, parseClock receipt.PurchaseTime.data = some t ∧ 14 ≤ t.hour ∧ t.hour < 16)
    ∧ (afternoonPoints receipt = 0
      ↔ ¬ ∃ t, parseClock receipt.PurchaseTime.data = some t ∧ 14 ≤ t.hour ∧ t.hour < 16)
    ∧ (afternoonPoints receipt = 10
      ↔ ∃ h m1 m2, receipt.PurchaseTime.data = ['1', h, ':', m1, m2] ∧ (h = '4' ∨ h = '5')
          ∧ isDigit m1 = true ∧ isDigit m2 = true ∧ digitVal m1 * 10 + digitVal m2 < 60)
    ∧ ((ParseClock receipt.PurchaseTime).2 = true → afternoonPoints receipt = 0)
    ∧ (∀ points : Int, rule7 receipt (wrapInt points)
        = wrapInt (points + afternoonPoints receipt))
    ∧ (∀ points : Int, afternoonPoints receipt = 0 → rule7 receipt points = points)
    ∧ calculatePoints receipt
        = wrapInt (calculatePoints { receipt with PurchaseTime := "" } + afternoonPoints receipt)
    ∧ afternoonPoints { receipt with PurchaseTime := "14:00" } = 10
    ∧ afternoonPoints { receipt with PurchaseTime := "16:00" } = 0
    ∧ afternoonPoints { receipt with PurchaseTime := "15:59" } = 10
    ∧ afternoonPoints { receipt with PurchaseTime := "13:59" } = 0 := by
  have h10 := afternoonPoints_eq_ten_iff receipt
  have hcases := afternoonPoints_cases receipt
  have h0 : afternoonPoints receipt = 0
      ↔ ¬ ∃ t, parseClock receipt.PurchaseTime.data = some t ∧ 14 ≤ t.hour ∧ t.hour < 16 := by
    rw [← h10]
    rcases hcases with h | h <;> rw [h] <;> decide
  refine ⟨h10, h0, h10.trans (parseClock_afternoon _), ?_, rule7_eq receipt, ?_, ?_,
    ?_, ?_, ?_, ?_⟩
  · intro herr
    rw [h0]
    rintro ⟨t, ht, _⟩
    unfold ParseClock at herr
    rw [ht] at herr
    simp at herr
  · intro points hz
    unfold afternoonPoints at hz
    unfold rule7
    simp only []
    split
    · rename_i hc
      rw [if_pos hc] at hz
      simp at hz
    · rfl
  · rw [calculatePoints_eq_wrap, calculatePoints_eq_wrap, wrapInt_add_left]
    congr 1
    have he : afternoonPoints { receipt with PurchaseTime := "" } = 0 := by
      show (if (ParseClock "").1.Hour ≥ 14 ∧ (ParseClock "").1.Hour < 16 then (10 : Int) else 0) = 0
      decide
    unfold exactPoints
    rw [he]
    simp only [retailerPoints, pairPoints, descriptionPoints, oddDayPoints]
    ring
  · show (if (ParseClock "14:00").1.Hour ≥ 14 ∧ (ParseClock "14:00").1.Hour < 16
      then (10 : Int) else 0) = 10
    decide
  · show (if (ParseClock "16:00").1.Hour ≥ 14 ∧ (ParseClock "16:00").1.Hour < 16
      then (10 : Int) else 0) = 0
    decide
  · show (if (ParseClock "15:59").1.Hour ≥ 14 ∧ (ParseClock "15:59").1.Hour < 16
      then (10 : Int) else 0) = 10
    decide
  · show (if (ParseClock "13:59").1.Hour ≥ 14 ∧ (ParseClock "13:59").1.Hour < 16
      then (10 : Int) else 0) = 0
    decide

/-! ## Rounding to float64 -/

theorem lt_two_pow_bitLenAux (fuel : Nat) : ∀ n, n ≤ fuel → n < 2 ^ bitLenAux fuel n := by
  induction fuel with
  | zero =>
    intro n hn
    have : n = 0 := by omega
    subst this
    simp [bitLenAux]
  | succ fuel ih =>
    intro n hn
    unfold bitLenAux
    by_cases h0 : n = 0
    · simp [h0]
    · rw [if_neg h0]
      have h := ih (n / 2) (by omega)
      rw [pow_succ]
      omega

theorem two_pow_bitLenAux_le (fuel : Nat) :
    ∀ n, n ≤ fuel → n ≠ 0 → 2 ^ (bitLenAux fuel n - 1) ≤ n := by
  induction fuel with
  | zero =>
    intro n hn h0
    omega
  | succ fuel ih =>
    intro n hn h0
    unfold bitLenAux
    rw [if_neg h0, Nat.add_sub_cancel]
    by_cases h1 : n / 2 = 0
    · have hb : bitLenAux fuel (n / 2) = 0 := by
        rw [h1]
        cases fuel <;> simp [bitLenAux]
      rw [hb]
      simp
      omega
    · have h := ih (n / 2) (by omega) h1
      have hpos : bitLenAux fuel (n / 2) ≠ 0 := by
        intro hz
        have := lt_two_pow_bitLenAux fuel (n / 2) (by omega)
        rw [hz] at this
        omega
      obtain ⟨k, hk⟩ := Nat.exists_eq_succ_of_ne_zero hpos
      rw [hk] at h ⊢
      rw [Nat.succ_sub_one] at h
      rw [pow_succ]
      omega

theorem bitLen_le (q K : Nat) (h : q < 2 ^ K) : bitLen q ≤ K := by
  unfold bitLen
  by_cases h0 : q = 0
  · subst h0
    simp [bitLenAux]
  · have h1 := two_pow_bitLenAux_le q q (le_refl q) h0
    have h2 : 2 ^ (bitLenAux q q - 1) < 2 ^ K := lt_of_le_of_lt h1 h
    have h3 := (Nat.pow_lt_pow_iff_right (by decide : 1 < 2)).1 h2
    omega

/-- The shape of `roundUnits`: a multiple of the unit in the last place `2^s`, within half
a unit in the last place of `num / den`, and exact when nothing is left over. -/
theorem roundUnits_spec (num den : Nat) (hden : 0 < den) :
    ∃ up : Nat, up ≤ 1
      ∧ roundUnits num den = (num / den / 2 ^ (bitLen (num / den) - 53) + up)
          * 2 ^ (bitLen (num / den) - 53)
      ∧ 2 * (roundUnits num den * den) ≤ 2 * num + 2 ^ (bitLen (num / den) - 53) * den
      ∧ 2 * num ≤ 2 * (roundUnits num den * den) + 2 ^ (bitLen (num / den) - 53) * den
      ∧ (num / den % 2 ^ (bitLen (num / den) - 53) = 0 → num % den = 0 →
          roundUnits num den = num / den) := by
  have hq : num = num / den * den + num % den := by
    rw [Nat.mul_comm]; exact (Nat.div_add_mod num den).symm
  have hr : num % den < den := Nat.mod_lt _ hden
  unfold roundUnits
  simp only []
  generalize num / den = q at hq ⊢
  generalize num % den = r at hq hr ⊢
  have hulp : 0 < 2 ^ (bitLen q - 53) := by positivity
  generalize 2 ^ (bitLen q - 53) = ulp at hulp ⊢
  have hm : q = q / ulp * ulp + q % ulp := by
    rw [Nat.mul_comm]; exact (Nat.div_add_mod q ulp).symm
  have hl : q % ulp < ulp := Nat.mod_lt _ hulp
  generalize q / ulp = m at hm ⊢
  generalize q % ulp = l at hm hl ⊢
  have hrest : l * den + r < ulp * den := by
    have : (l + 1) * den ≤ ulp * den := Nat.mul_le_mul_right den hl
    nlinarith
  have hnum : num = m * ulp * den + (l * den + r) := by
    rw [hq, hm]; ring
  by_cases hup : (decide (ulp * den < 2 * (l * den + r))
            || (decide (2 * (l * den + r) = ulp * den) && decide (m % 2 = 1))) = true
  · rw [if_pos hup]
    have hge : ulp * den ≤ 2 * (l * den + r) := by
      simp only [Bool.or_eq_true, Bool.and_eq_true, decide_eq_true_eq] at hup
      rcases hup with h | ⟨h, _⟩ <;> omega
    refine ⟨1, le_refl 1, rfl, ?_, ?_, ?_⟩
    · rw [hnum]; nlinarith
    · rw [hnum]; nlinarith
    · intro hl0 hr0
      rw [hl0, hr0, Nat.zero_mul, Nat.add_zero, Nat.mul_zero] at hge
      have := Nat.mul_pos hulp hden
      omega
  · rw [if_neg hup]
    have hle : 2 * (l * den + r) ≤ ulp * den := by
      simp only [Bool.or_eq_true, Bool.and_eq_true, decide_eq_true_eq, not_or, not_and] at hup
      omega
    refine ⟨0, by omega, by rw [add_zero], ?_, ?_, ?_⟩
    · rw [hnum]; nlinarith
    · rw [hnum]; nlinarith
    · intro hl0 _
      rw [hm, hl0, add_zero]

theorem roundUnits_le (num den K : Nat) (hden : 0 < den) (hK : 53 ≤ K)
    (hq : num / den < 2 ^ K) : roundUnits num den ≤ 2 ^ K := by
  obtain ⟨up, hup, hR, -⟩ := roundUnits_spec num den hden
  have hs : bitLen (num / den) - 53 ≤ K - 53 := Nat.sub_le_sub_right (bitLen_le _ _ hq) 53
  generalize bitLen (num / den) - 53 = s at hR hs
  have hKs : 2 ^ K = 2 ^ (K - s) * 2 ^ s := by
    rw [← pow_add]
    congr 1
    omega
  have hm : num / den / 2 ^ s < 2 ^ (K - s) := by
    apply Nat.div_lt_of_lt_mul
    rw [Nat.mul_comm, ← hKs]
    exact hq
  rw [hR, hKs]
  apply Nat.mul_le_mul_right
  omega

theorem unit_eq : unit = 64 * 2 ^ 1068 := by
  unfold unit
  rw [show (1074 : Nat) = 6 + 1068 from rfl, pow_add, show (2 : Nat) ^ 6 = 64 from rfl]

theorem quarterUnit_eq : quarterUnit = 16 * 2 ^ 1068 := by
  unfold quarterUnit
  rw [show (1072 : Nat) = 4 + 1068 from rfl, pow_add, show (2 : Nat) ^ 4 = 16 from rfl]

/-- Rounding an amount of `n` cents below `10^16` cents: the float64 is a whole number
exactly when the cents are `00`, and a multiple of 0.25 exactly when 25 divides `n`. -/
theorem roundUnits_cents (n : Nat) (hn : n < 10 ^ 16) :
    roundUnits (n * unit) 100 < overflowUnits
    ∧ (roundUnits (n * unit) 100 % unit = 0 ↔ n % 100 = 0)
    ∧ (roundUnits (n * unit) 100 % quarterUnit = 0 ↔ n % 25 = 0) := by
  have hdiv : n * unit / 100 < 2 ^ 1121 := by
    apply Nat.div_lt_of_lt_mul
    have h1 : (2 : Nat) ^ 1121 = 2 ^ 47 * unit := by
      unfold unit
      rw [← pow_add]
    rw [h1, ← Nat.mul_assoc]
    apply Nat.mul_lt_mul_of_pos_right _ (by unfold unit; positivity)
    have : (10 : Nat) ^ 16 < 100 * 2 ^ 47 := by decide
    omega
  have hov : roundUnits (n * unit) 100 < overflowUnits := by
    have h1 := roundUnits_le (n * unit) 100 1121 (by decide) (by omega) hdiv
    have h2 : ∀ a b : Nat, a < b → (2 : Nat) ^ a < 2 ^ b :=
      fun a b h => Nat.pow_lt_pow_right (by decide) h
    exact lt_of_le_of_lt h1 (h2 1121 2098 (by decide))
  refine ⟨hov, ?_⟩
  obtain ⟨up, -, -, hlo, hhi, hexact⟩ := roundUnits_spec (n * unit) 100 (by decide)
  have hs : bitLen (n * unit / 100) - 53 ≤ 1068 := by
    have := bitLen_le _ _ hdiv
    omega
  have hdvd : 2 ^ (bitLen (n * unit / 100) - 53) ∣ 2 ^ 1068 := pow_dvd_pow 2 hs
  have hP : 0 < 2 ^ 1068 := by positivity
  have hu := unit_eq
  have hqu := quarterUnit_eq
  generalize roundUnits (n * unit) 100 = R at hlo hhi hexact ⊢
  generalize 2 ^ (bitLen (n * unit / 100) - 53) = ulp at hlo hhi hexact hdvd
  generalize 2 ^ 1068 = P at hP hu hqu hdvd
  have hulp : ulp ≤ P := Nat.le_of_dvd hP hdvd
  have hA : ∀ j, n = 25 * j → R = j * quarterUnit := by
    intro j hj
    have e : n * unit = 100 * (j * quarterUnit) := by rw [hj, hu, hqu]; ring
    rw [e, Nat.mul_div_cancel_left _ (by decide : 0 < 100), Nat.mul_mod_right] at hexact
    apply hexact _ rfl
    apply Nat.mod_eq_zero_of_dvd
    rw [hqu]
    exact Dvd.dvd.mul_left (Dvd.dvd.mul_left hdvd 16) j
  have hB : ∀ k, R = k * quarterUnit → n = 25 * k := by
    intro k hk
    rw [hk, hqu, hu] at hlo hhi
    have h1 : (3200 * k) * P ≤ (128 * n + 100) * P := by nlinarith
    have h2 : (128 * n) * P ≤ (3200 * k + 100) * P := by nlinarith
    have h1' := Nat.le_of_mul_le_mul_right h1 hP
    have h2' := Nat.le_of_mul_le_mul_right h2 hP
    omega
  have hquarter : R % quarterUnit = 0 ↔ n % 25 = 0 := by
    constructor
    · intro h
      obtain ⟨k, hk⟩ := Nat.dvd_of_mod_eq_zero h
      have := hB k (by rw [hk, Nat.mul_comm])
      omega
    · intro h
      have := hA (n / 25) (by omega)
      rw [this]
      exact Nat.mul_mod_left _ _
  refine ⟨?_, hquarter⟩
  constructor
  · intro h
    obtain ⟨k, hk⟩ := Nat.dvd_of_mod_eq_zero h
    have hk' : R = (4 * k) * quarterUnit := by rw [hk, hu, hqu]; ring
    have := hB (4 * k) hk'
    omega
  · intro h
    have := hA (n / 25) (by omega)
    rw [this]
    have e : n / 25 = 4 * (n / 100) := by omega
    have e2 : n / 25 * quarterUnit = (n / 100) * unit := by rw [e, hu, hqu]; ring
    rw [e2]
    exact Nat.mul_mod_left _ _

/-! ## Parsing a well-formed amount -/

theorem isDigit_toNat (c : Char) (h : isDigit c = true) : 48 ≤ c.toNat ∧ c.toNat ≤ 57 := by
  unfold isDigit at h
  simpa using h

theorem isDigit_ne (c d : Char) (h : isDigit c = true) (hd : ¬ (48 ≤ d.toNat ∧ d.toNat ≤ 57)) :
    c ≠ d := by
  intro e
  subst e
  exact hd (isDigit_toNat c h)

theorem scanDigits_digit (c : Char) (s : List Char) (st : DigitScan) (h : isDigit c = true) :
    scanDigits 10 (c :: s) st = scanDigits 10 s (digitStep st c) := by
  have h1 : c ≠ '_' := isDigit_ne c '_' h (by decide)
  have h2 : c ≠ '.' := isDigit_ne c '.' h (by decide)
  rw [scanDigits]
  simp only [h1, h2, h, if_false, if_true, digitStep]
  split <;> rfl

theorem scanDigits_digits (ds tail : List Char) (st : DigitScan)
    (h : ∀ c ∈ ds, isDigit c = true) :
    scanDigits 10 (ds ++ tail) st = scanDigits 10 tail (ds.foldl digitStep st) := by
  induction ds generalizing st with
  | nil => rfl
  | cons c t ih =>
    rw [List.cons_append, scanDigits_digit c _ st (h c (List.mem_cons_self _ _)), List.foldl_cons]
    exact ih _ (fun d hd => h d (List.mem_cons_of_mem _ hd))

theorem foldl_decimal (ds : List Char) (a : Nat) :
    ds.foldl (fun a c => a * 10 + digitVal c) a = a * 10 ^ ds.length + decimalValue ds := by
  unfold decimalValue
  induction ds generalizing a with
  | nil => simp
  | cons c t ih =>
    rw [List.foldl_cons, ih, List.foldl_cons, ih (0 * 10 + digitVal c), List.length_cons, pow_succ]
    ring

theorem decimalValue_cons (c : Char) (t : List Char) :
    decimalValue (c :: t) = digitVal c * 10 ^ t.length + decimalValue t := by
  have h := foldl_decimal t (0 * 10 + digitVal c)
  rw [Nat.zero_mul, Nat.zero_add] at h
  unfold decimalValue
  rw [List.foldl_cons, Nat.zero_mul, Nat.zero_add]
  exact h

theorem digitStep_spec (st : DigitScan) (c : Char) (h0 : st.nd = 0 → st.mantissa = 0) :
    (digitStep st c).mantissa = st.mantissa * 10 + digitVal c
    ∧ ((digitStep st c).nd = 0 → (digitStep st c).mantissa = 0)
    ∧ (digitStep st c).dp - (digitStep st c).nd = st.dp - st.nd - 1
    ∧ (digitStep st c).nd ≤ st.nd + 1
    ∧ (digitStep st c).sawdot = st.sawdot
    ∧ (digitStep st c).underscores = st.underscores
    ∧ (digitStep st c).sawdigits = true := by
  unfold digitStep
  by_cases hz : c = '0' ∧ st.nd = 0
  · rw [if_pos hz]
    have hm := h0 hz.2
    have hv : digitVal c = 0 := by rw [hz.1]; rfl
    refine ⟨?_, fun _ => hm, ?_, ?_, rfl, rfl, rfl⟩
    · show st.mantissa = st.mantissa * 10 + digitVal c
      rw [hm, hv]
    · show st.dp - 1 - (st.nd : Int) = st.dp - st.nd - 1
      omega
    · show st.nd ≤ st.nd + 1
      omega
  · rw [if_neg hz]
    refine ⟨rfl, ?_, ?_, le_refl _, rfl, rfl, rfl⟩
    · intro hcontra
      have : st.nd + 1 = 0 := hcontra
      omega
    · show st.dp - ((st.nd + 1 : Nat) : Int) = st.dp - st.nd - 1
      push_cast
      omega

/-- What the digit loop has recorded after a run of decimal digits. -/
theorem foldl_digitStep (ds : List Char) (st : DigitScan) (h0 : st.nd = 0 → st.mantissa = 0) :
    (ds.foldl digitStep st).mantissa = st.mantissa * 10 ^ ds.length + decimalValue ds
    ∧ ((ds.foldl digitStep st).nd = 0 → (ds.foldl digitStep st).mantissa = 0)
    ∧ (ds.foldl digitStep st).dp - (ds.foldl digitStep st).nd = st.dp - st.nd - ds.length
    ∧ (ds.foldl digitStep st).nd ≤ st.nd + ds.length
    ∧ (ds.foldl digitStep st).sawdot = st.sawdot
    ∧ (ds.foldl digitStep st).underscores = st.underscores
    ∧ (ds ≠ [] → (ds.foldl digitStep st).sawdigits = true) := by
  induction ds generalizing st with
  | nil => simpa [decimalValue] using h0
  | cons c t ih =>
    obtain ⟨s1, s2, s3, s4, s5, s6, s7⟩ := digitStep_spec st c h0
    obtain ⟨i1, i2, i3, i4, i5, i6, i7⟩ := ih (digitStep st c) s2
    rw [List.foldl_cons]
    refine ⟨?_, i2, ?_, ?_, by rw [i5, s5], by rw [i6, s6], ?_⟩
    · rw [i1, s1, List.length_cons, pow_succ, decimalValue_cons]
      ring
    · rw [i3, s3, List.length_cons]
      push_cast
      omega
    · rw [List.length_cons]
      omega
    · intro _
      by_cases hte : t = []
      · subst hte
        exact s7
      · exact i7 hte

theorem lower_digit_ne (c : Char) (h : isDigit c = true) : lower c ≠ 120 := by
  have h1 := isDigit_toNat c h
  unfold lower
  generalize c.toNat = k at h1
  obtain ⟨h2, h3⟩ := h1
  interval_cases k <;> decide

theorem special_digit (c : Char) (t : List Char) (h : isDigit c = true) :
    special (c :: t) = none := by
  have h1 : c ≠ '+' := isDigit_ne c '+' h (by decide)
  have h2 : c ≠ '-' := isDigit_ne c '-' h (by decide)
  have h3 : c ≠ 'i' := isDigit_ne c 'i' h (by decide)
  have h4 : c ≠ 'I' := isDigit_ne c 'I' h (by decide)
  have h5 : c ≠ 'n' := isDigit_ne c 'n' h (by decide)
  have h6 : c ≠ 'N' := isDigit_ne c 'N' h (by decide)
  simp [special, h1, h2, h3, h4, h5, h6]

/-- `readFloat` on a decimal number without sign, exponent or underscores. -/
theorem readFloat_plain (c0 c1 c2 : Char) (t : List Char) (st : DigitScan)
    (h0 : isDigit c0 = true) (h1 : lower c1 ≠ 120)
    (hst : scanDigits 10 (c0 :: c1 :: c2 :: t) ⟨false, false, 0, 0, 0, false, []⟩ = st)
    (hd : st.sawdigits = true) (hr : st.rest = []) (hu : st.underscores = false) :
    readFloat (c0 :: c1 :: c2 :: t)
      = some ⟨st.mantissa, st.nd, if st.sawdot then st.dp else st.nd, false, false, []⟩ := by
  have hp : c0 ≠ '+' := isDigit_ne c0 '+' h0 (by decide)
  have hm : c0 ≠ '-' := isDigit_ne c0 '-' h0 (by decide)
  unfold readFloat
  simp only [hp, hm, h1, or_self, if_false, decide_False, Bool.and_false, Bool.false_eq_true,
    hst, hd, hr, hu, Bool.not_true, Bool.false_and]

theorem amount_shape (ds : List Char) (c1 c2 : Char) (hne : ds ≠ [])
    (hds : ∀ c ∈ ds, isDigit c = true) :
    ∃ a b c t, ds ++ ['.', c1, c2] = a :: b :: c :: t ∧ isDigit a = true ∧ lower b ≠ 120 := by
  match ds, hne, hds with
  | [d0], _, hds =>
    exact ⟨d0, '.', c1, [c2], rfl, hds d0 (List.mem_cons_self _ _), by decide⟩
  | [d0, d1], _, hds =>
    exact ⟨d0, d1, '.', [c1, c2], rfl, hds d0 (List.mem_cons_self _ _),
      lower_digit_ne d1 (hds d1 (by simp))⟩
  | d0 :: d1 :: d2 :: r, _, hds =>
    exact ⟨d0, d1, d2, r ++ ['.', c1, c2], rfl, hds d0 (List.mem_cons_self _ _),
      lower_digit_ne d1 (hds d1 (by simp))⟩

/-- The digit loop on a well-formed amount `ds.c1c2`. -/
theorem scanDigits_amount (ds : List Char) (c1 c2 : Char)
    (hds : ∀ c ∈ ds, isDigit c = true)
    (h1 : isDigit c1 = true) (h2 : isDigit c2 = true) :
    ∃ st : DigitScan,
      scanDigits 10 (ds ++ ['.', c1, c2]) ⟨false, false, 0, 0, 0, false, []⟩ = st
      ∧ st.mantissa = decimalValue ds * 100 + digitVal c1 * 10 + digitVal c2
      ∧ st.dp - st.nd = -2
      ∧ st.nd ≤ ds.length + 2
      ∧ st.sawdot = true ∧ st.sawdigits = true ∧ st.underscores = false ∧ st.rest = [] := by
  obtain ⟨a1, a2, a3, a4, a5, a6, a7⟩ :=
    foldl_digitStep ds ⟨false, false, 0, 0, 0, false, []⟩ (fun _ => rfl)
  obtain ⟨st1, hst1⟩ : ∃ st1, st1 = List.foldl digitStep ⟨false, false, 0, 0, 0, false, []⟩ ds :=
    ⟨_, rfl⟩
  rw [← hst1] at a1 a2 a3 a4 a5 a6 a7
  have hdot : scanDigits 10 (ds ++ ['.', c1, c2]) ⟨false, false, 0, 0, 0, false, []⟩
      = scanDigits 10 ([c1, c2] ++ []) { st1 with sawdot := true, dp := st1.nd } := by
    rw [scanDigits_digits ds _ _ hds, ← hst1, scanDigits]
    simp [a5]
  have hc : ∀ c ∈ [c1, c2], isDigit c = true := by
    intro c hc
    simp only [List.mem_cons, List.mem_singleton, List.not_mem_nil, or_false] at hc
    rcases hc with rfl | rfl
    · exact h1
    · exact h2
  obtain ⟨b1, b2, b3, b4, b5, b6, b7⟩ :=
    foldl_digitStep [c1, c2] { st1 with sawdot := true, dp := st1.nd } a2
  obtain ⟨st3, hst3⟩ : ∃ st3, st3 = List.foldl digitStep
      { st1 with sawdot := true, dp := st1.nd } [c1, c2] := ⟨_, rfl⟩
  rw [← hst3] at b1 b2 b3 b4 b5 b6 b7
  refine ⟨{ st3 with rest := [] }, ?_, ?_, ?_, ?_, ?_, ?_, ?_, rfl⟩
  · rw [hdot, scanDigits_digits [c1, c2] [] _ hc, ← hst3]
    rfl
  · show st3.mantissa = _
    rw [b1]
    show st1.mantissa * 10 ^ 2 + decimalValue [c1, c2] = _
    have e : decimalValue [c1, c2] = digitVal c1 * 10 + digitVal c2 := by
      simp [decimalValue]
    rw [a1, e]
    simp only [Nat.zero_mul, Nat.zero_add]
    ring
  · show st3.dp - (st3.nd : Int) = -2
    rw [b3]
    show (st1.nd : Int) - st1.nd - (2 : Nat) = -2
    push_cast
    omega
  · show st3.nd ≤ ds.length + 2
    have : st3.nd ≤ st1.nd + 2 := b4
    have : st1.nd ≤ 0 + ds.length := a4
    omega
  · show st3.sawdot = true
    rw [b5]
  · show st3.sawdigits = true
    exact b7 (by simp)
  · show st3.underscores = false
    rw [b6]
    exact a6

theorem decimalValue_lt (ds : List Char) (hds : ∀ c ∈ ds, isDigit c = true) :
    decimalValue ds < 10 ^ ds.length := by
  induction ds with
  | nil => simp [decimalValue]
  | cons c t ih =>
    have hc := digitVal_le c (hds c (List.mem_cons_self _ _))
    have ht := ih (fun d hd => hds d (List.mem_cons_of_mem _ hd))
    rw [decimalValue_cons, List.length_cons, pow_succ]
    have : digitVal c * 10 ^ t.length ≤ 9 * 10 ^ t.length := Nat.mul_le_mul_right _ hc
    omega

/-- `ParseFloat` on a well-formed amount `ds.c1c2` with at most 14 integer digits returns,
without error, the float64 nearest to the amount. -/
theorem ParseFloat_amount (s : String) (ds : List Char) (c1 c2 : Char)
    (hs : s.data = ds ++ ['.', c1, c2]) (hne : ds ≠ [])
    (hds : ∀ c ∈ ds, isDigit c = true) (h1 : isDigit c1 = true) (h2 : isDigit c2 = true)
    (hlen : ds.length ≤ 14) :
    decimalValue ds * 100 + digitVal c1 * 10 + digitVal c2 < 10 ^ 16
    ∧ ParseFloat s = (F64.fin false (roundUnits
        ((decimalValue ds * 100 + digitVal c1 * 10 + digitVal c2) * unit) 100), none) := by
  have hn : decimalValue ds * 100 + digitVal c1 * 10 + digitVal c2 < 10 ^ 16 := by
    have hv := decimalValue_lt ds hds
    have hp : 10 ^ ds.length ≤ 10 ^ 14 := Nat.pow_le_pow_right (by decide) hlen
    have l1 := digitVal_le c1 h1
    have l2 := digitVal_le c2 h2
    have e : (10 : Nat) ^ 16 = 10 ^ 14 * 100 := by norm_num
    omega
  refine ⟨hn, ?_⟩
  obtain ⟨a, b, c, t, hshape, ha, hb⟩ := amount_shape ds c1 c2 hne hds
  obtain ⟨st, hst, m1, m2, m3, m4, m5, m6, m7⟩ := scanDigits_amount ds c1 c2 hds h1 h2
  have hrf : readFloat s.data = some ⟨st.mantissa, st.nd, st.dp, false, false, []⟩ := by
    rw [hs, hshape]
    rw [hshape] at hst
    have h := readFloat_plain a b c t st ha hb hst m5 m7 m6
    rw [m4] at h
    exact h
  have hsp : special s.data = none := by
    rw [hs, hshape]
    exact special_digit a _ ha
  have hcents := (roundUnits_cents _ hn).1
  generalize decimalValue ds * 100 + digitVal c1 * 10 + digitVal c2 = n at m1 hn hcents ⊢
  have hdec : decimalToF64 false st.mantissa st.nd st.dp
      = (F64.fin false (roundUnits (n * unit) 100), none) := by
    unfold decimalToF64
    by_cases hz : n = 0
    · subst hz
      rw [if_pos m1, Nat.zero_mul]
      rfl
    · have hz' : ¬ st.mantissa = 0 := by rw [m1]; exact hz
      have c1' : ¬ st.dp > 310 := by omega
      have c2' : ¬ st.dp < -330 := by omega
      have c3' : ¬ (0 : Int) ≤ st.dp - st.nd := by omega
      have e : ((st.nd : Int) - st.dp).toNat = 2 := by omega
      rw [if_neg hz', if_neg c1', if_neg c2', if_neg c3', e, m1,
        show (10 : Nat) ^ 2 = 100 from rfl]
      unfold packRounded
      rw [if_neg (by omega)]
  unfold ParseFloat atof64
  rw [hsp, hrf]
  simp only [hdec]
  simp

/-! ## Rules 2 and 3 on a well-formed total -/

theorem roundDollarPoints_fin (m : Nat) :
    roundDollarPoints (F64.fin false m) = 50 ↔ m % unit = 0 := by
  have hu : unit ≠ 0 := by unfold unit; positivity
  by_cases h : m % unit = 0
  · simp [roundDollarPoints, F64.Mod, F64.one, F64.eq, F64.zero, hu, h]
  · simp [roundDollarPoints, F64.Mod, F64.one, F64.eq, F64.zero, hu, h]

theorem quarterPoints_fin (m : Nat) :
    quarterPoints (F64.fin false m) = 25 ↔ m % quarterUnit = 0 := by
  have hu : quarterUnit ≠ 0 := by unfold quarterUnit; positivity
  by_cases h : m % quarterUnit = 0
  · simp [quarterPoints, F64.Mod, F64.quarter, F64.eq, F64.zero, hu, h]
  · simp [quarterPoints, F64.Mod, F64.quarter, F64.eq, F64.zero, hu, h]

theorem cents_zero_iff (c1 c2 : Char) (h1 : isDigit c1 = true) (h2 : isDigit c2 = true) :
    digitVal c1 * 10 + digitVal c2 = 0 ↔ c1 = '0' ∧ c2 = '0' := by
  constructor
  · intro h
    exact ⟨digit_of_val c1 0 h1 (by omega), digit_of_val c2 0 h2 (by omega)⟩
  · rintro ⟨rfl, rfl⟩
    rfl

/-- C8, for totals of at most 14 integer digits: for every total made of one to fourteen
decimal digits `ds`, a `.` and exactly two decimal digits `c1 c2`, `ParseFloat` succeeds and
the two checks agree with integer cents: the 50-point bonus is awarded if and only if the
cents digits are "00", and the 25-point bonus if and only if the amount in cents is
divisible by 25, that is if and only if the cents `c1 c2` are 00, 25, 50 or 75. -/
theorem well_formed_total_matches_cents (receipt : Receipt) (ds : List Char) (c1 c2 : Char)
    (hs : receipt.Total.data = ds ++ ['.', c1, c2]) (hne : ds ≠ [])
    (hds : ∀ c ∈ ds, isDigit c = true) (h1 : isDigit c1 = true) (h2 : isDigit c2 = true)
    (hlen : ds.length ≤ 14) :
    (ParseFloat receipt.Total).2 = none
    ∧ (roundDollarPoints (ParseFloat receipt.Total).1 = 50 ↔ c1 = '0' ∧ c2 = '0')
    ∧ (quarterPoints (ParseFloat receipt.Total).1 = 25
        ↔ (decimalValue ds * 100 + digitVal c1 * 10 + digitVal c2) % 25 = 0)
    ∧ (quarterPoints (ParseFloat receipt.Total).1 = 25
        ↔ (digitVal c1 * 10 + digitVal c2 = 0 ∨ digitVal c1 * 10 + digitVal c2 = 25
            ∨ digitVal c1 * 10 + digitVal c2 = 50 ∨ digitVal c1 * 10 + digitVal c2 = 75))
    ∧ (∀ points : Int, rule2 (ParseFloat receipt.Total).1 points
        = if c1 = '0' ∧ c2 = '0' then wrapInt (points + 50) else points)
    ∧ (∀ points : Int, rule3 (ParseFloat receipt.Total).1 points
        = if (decimalValue ds * 100 + digitVal c1 * 10 + digitVal c2) % 25 = 0
          then wrapInt (points + 25) else points) := by
  obtain ⟨hn, hp⟩ := ParseFloat_amount receipt.Total ds c1 c2 hs hne hds h1 h2 hlen
  obtain ⟨-, hunit, hquarter⟩ := roundUnits_cents _ hn
  have l1 := digitVal_le c1 h1
  have l2 := digitVal_le c2 h2
  have hz := cents_zero_iff c1 c2 h1 h2
  have e50 : roundDollarPoints (ParseFloat receipt.Total).1 = 50 ↔ c1 = '0' ∧ c2 = '0' := by
    rw [hp, roundDollarPoints_fin, hunit, ← hz]
    omega
  have e25 : quarterPoints (ParseFloat receipt.Total).1 = 25
      ↔ (decimalValue ds * 100 + digitVal c1 * 10 + digitVal c2) % 25 = 0 := by
    rw [hp, quarterPoints_fin, hquarter]
  refine ⟨by rw [hp], e50, e25, ?_, ?_, ?_⟩
  · rw [e25]
    omega
  · intro points
    unfold rule2
    by_cases hc : c1 = '0' ∧ c2 = '0'
    · have := e50.2 hc
      unfold roundDollarPoints at this
      rw [if_pos hc]
      split
      · rfl
      · rename_i hne'
        rw [if_neg hne'] at this
        simp at this
    · have hne' : ¬ roundDollarPoints (ParseFloat receipt.Total).1 = 50 := fun h => hc (e50.1 h)
      unfold roundDollarPoints at hne'
      rw [if_neg hc]
      split
      · rename_i hpos
        rw [if_pos hpos] at hne'
        simp at hne'
      · rfl
  · intro points
    unfold rule3
    by_cases hc : (decimalValue ds * 100 + digitVal c1 * 10 + digitVal c2) % 25 = 0
    · have := e25.2 hc
      unfold quarterPoints at this
      rw [if_pos hc]
      split
      · rfl
      · rename_i hne'
        rw [if_neg hne'] at this
        simp at this
    · have hne' : ¬ quarterPoints (ParseFloat receipt.Total).1 = 25 := fun h => hc (e25.1 h)
      unfold quarterPoints at hne'
      rw [if_neg hc]
      split
      · rename_i hpos
        rw [if_pos hpos] at hne'
        simp at hne'
      · rfl

/-- The total "35.35" of scenario A is well-formed; it earns neither bonus. -/
theorem well_formed_total_matches_cents_witness :
    (⟨"Target", "2022-01-01", "13:01", "35.35", []⟩ : Receipt).Total.data
        = ['3', '5'] ++ ['.', '3', '5']
    ∧ (roundDollarPoints (ParseFloat "35.35").1 = 50 ↔ '3' = '0' ∧ '5' = '0')
    ∧ (quarterPoints (ParseFloat "35.35").1 = 25
        ↔ (decimalValue ['3', '5'] * 100 + digitVal '3' * 10 + digitVal '5') % 25 = 0) :=
  ⟨rfl,
    (well_formed_total_matches_cents ⟨"Target", "2022-01-01", "13:01", "35.35", []⟩
      ['3', '5'] '3' '5' rfl (by decide) (by decide) (by decide) (by decide) (by decide)).2.1,
    (well_formed_total_matches_cents ⟨"Target", "2022-01-01", "13:01", "35.35", []⟩
      ['3', '5'] '3' '5' rfl (by decide) (by decide) (by decide) (by decide) (by decide)).2.2.1⟩

/-- C8 as stated fails for large totals: "140737488355328.01" (`2^47` dollars and one
cent) is well-formed with cents "01", but the nearest float64 is `2^47`, a whole number:
the 50-point and the 25-point bonus are both awarded. -/
theorem large_total_counterexample :
    "140737488355328.01".data = "140737488355328".data ++ ['.', '0', '1']
    ∧ (∀ c ∈ "140737488355328".data, isDigit c = true)
    ∧ ParseFloat "140737488355328.01" = (F64.fin false (2 ^ 47 * unit), none)
    ∧ roundDollarPoints (ParseFloat "140737488355328.01").1 = 50
    ∧ quarterPoints (ParseFloat "140737488355328.01").1 = 25
    ∧ ¬ (roundDollarPoints (ParseFloat "140737488355328.01").1 = 50 ↔ '0' = '0' ∧ '1' = '0')
    ∧ ¬ (quarterPoints (ParseFloat "140737488355328.01").1 = 25
          ↔ (decimalValue "140737488355328".data * 100 + 1) % 25 = 0)
    ∧ calculatePoints ⟨"", "2022-01-02", "", "140737488355328.01", []⟩ = 75 := by
  decide!

/-! ## The sign of the score -/

theorem pointTwo_lt : 7205759403792794 * 2 ^ 1019 < quarterUnit := by
  unfold quarterUnit
  rw [show (1072 : Nat) = 53 + 1019 from rfl, pow_add]
  exact Nat.mul_lt_mul_of_pos_right (by decide) (by positivity)

/-- C1 as stated fails: an item with a negative price and a six-character description adds
`ceil(-100 * 0.2) = -20`; the receipt scores `6 - 20 = -14`. -/
theorem negative_price_counterexample :
    itemPoints ⟨"Refund", "-100.00"⟩ = -20
    ∧ calculatePoints ⟨"Target", "2022-01-02", "13:01", "35.35", [⟨"Refund", "-100.00"⟩]⟩ = -14
    ∧ ¬ (0 ≤ calculatePoints
          ⟨"Target", "2022-01-02", "13:01", "35.35", [⟨"Refund", "-100.00"⟩]⟩) := by
  decide!

/-! ## Rule 6: the purchase date -/

theorem daysIn_eq_monthLength (year month : Nat) (h1 : 1 ≤ month) (h12 : month ≤ 12) :
    daysIn month year = monthLength year month := by
  unfold daysIn monthLength isLeap daysBefore
  interval_cases month <;> simp
  split_ifs <;> omega

theorem getYear_digits (a b c d : Char) (t : List Char)
    (ha : isDigit a = true) (hb : isDigit b = true) (hc : isDigit c = true)
    (hd : isDigit d = true) :
    getYear (a :: b :: c :: d :: t)
      = some (digitVal a * 1000 + digitVal b * 100 + digitVal c * 10 + digitVal d, t) := by
  simp [getYear, ha, hb, hc, hd]

/-- `time.Parse("2006-01-02", value)` on a date written `yyyy-mm-dd` that exists in the
calendar. -/
theorem parseDate_valid (y1 y2 y3 y4 m1 m2 d1 d2 : Char)
    (hdig : ∀ c ∈ [y1, y2, y3, y4, m1, m2, d1, d2], isDigit c = true)
    (hmonth : 1 ≤ digitVal m1 * 10 + digitVal m2 ∧ digitVal m1 * 10 + digitVal m2 ≤ 12)
    (hday : 1 ≤ digitVal d1 * 10 + digitVal d2
      ∧ digitVal d1 * 10 + digitVal d2
        ≤ monthLength (digitVal y1 * 1000 + digitVal y2 * 100 + digitVal y3 * 10 + digitVal y4)
            (digitVal m1 * 10 + digitVal m2)) :
    parseDate [y1, y2, y3, y4, '-', m1, m2, '-', d1, d2]
      = some ⟨digitVal y1 * 1000 + digitVal y2 * 100 + digitVal y3 * 10 + digitVal y4,
          digitVal m1 * 10 + digitVal m2, digitVal d1 * 10 + digitVal d2, 0, 0⟩ := by
  have hy := getYear_digits y1 y2 y3 y4 ['-', m1, m2, '-', d1, d2]
    (hdig _ (by simp)) (hdig _ (by simp)) (hdig _ (by simp)) (hdig _ (by simp))
  have hm := getnum_two m1 m2 ['-', d1, d2] true (hdig _ (by simp)) (hdig _ (by simp))
  have hd := getnum_two d1 d2 [] true (hdig _ (by simp)) (hdig _ (by simp))
  have hdays := daysIn_eq_monthLength
    (digitVal y1 * 1000 + digitVal y2 * 100 + digitVal y3 * 10 + digitVal y4)
    (digitVal m1 * 10 + digitVal m2) hmonth.1 hmonth.2
  have c1 : ¬ (digitVal m1 * 10 + digitVal m2 = 0 ∨ 12 < digitVal m1 * 10 + digitVal m2) := by
    omega
  have c2 : ¬ (digitVal d1 * 10 + digitVal d2 < 1
      ∨ digitVal d1 * 10 + digitVal d2
        > daysIn (digitVal m1 * 10 + digitVal m2)
            (digitVal y1 * 1000 + digitVal y2 * 100 + digitVal y3 * 10 + digitVal y4)) := by
    rw [hdays]
    omega
  unfold parseDate
  rw [hy]
  simp only [skip, if_true, hm, hd, if_neg c1, if_neg c2]
  simp


theorem oddDayPoints_of_parse (receipt : Receipt) (t : Time)
    (h : parseDate receipt.PurchaseDate.data = some t) :
    oddDayPoints receipt = if t.day % 2 = 1 then 6 else 0 := by
  unfold oddDayPoints ParseDate
  rw [h]
  simp only [Time.Day]
  by_cases hd : t.day % 2 = 1
  · rw [if_pos hd, if_pos (by omega)]
  · rw [if_neg hd, if_neg (by omega)]

/-- C11: for every receipt whose purchaseDate is written `yyyy-mm-dd` (four digits, two
digits, two digits) with a month from 1 to 12 and a day that exists in that month of the
Gregorian calendar, `time.Parse` succeeds with that day, and rule 6 adds its 6 points if and
only if the day of the month is odd, and nothing otherwise; the score is the score with the
even date "2022-01-02" plus that amount (in 64-bit arithmetic).  "2022-01-01" earns the
bonus, "2022-03-20" does not. -/
theorem odd_day_bonus (receipt : Receipt) (y1 y2 y3 y4 m1 m2 d1 d2 : Char)
    (hs : receipt.PurchaseDate.data = [y1, y2, y3, y4, '-', m1, m2, '-', d1, d2])
    (hdig : ∀ c ∈ [y1, y2, y3, y4, m1, m2, d1, d2], isDigit c = true)
    (hmonth : 1 ≤ digitVal m1 * 10 + digitVal m2 ∧ digitVal m1 * 10 + digitVal m2 ≤ 12)
    (hday : 1 ≤ digitVal d1 * 10 + digitVal d2
      ∧ digitVal d1 * 10 + digitVal d2
        ≤ monthLength (digitVal y1 * 1000 + digitVal y2 * 100 + digitVal y3 * 10 + digitVal y4)
            (digitVal m1 * 10 + digitVal m2)) :
    (ParseDate receipt.PurchaseDate).2 = false
    ∧ (ParseDate receipt.PurchaseDate).1.Day = digitVal d1 * 10 + digitVal d2
    ∧ (oddDayPoints receipt = 6 ↔ (digitVal d1 * 10 + digitVal d2) % 2 = 1)
    ∧ (oddDayPoints receipt = 0 ↔ (digitVal d1 * 10 + digitVal d2) % 2 = 0)
    ∧ (oddDayPoints receipt = 6 ↔ digitVal d2 % 2 = 1)
    ∧ (∀ points : Int, rule6 receipt (wrapInt points)
        = wrapInt (points + if (digitVal d1 * 10 + digitVal d2) % 2 = 1 then 6 else 0))
    ∧ calculatePoints receipt
        = wrapInt (calculatePoints { receipt with PurchaseDate := "2022-01-02" }
            + oddDayPoints receipt)
    ∧ oddDayPoints { receipt with PurchaseDate := "2022-01-01" } = 6
    ∧ oddDayPoints { receipt with PurchaseDate := "2022-03-20" } = 0 := by
  have hp := parseDate_valid y1 y2 y3 y4 m1 m2 d1 d2 hdig hmonth hday
  rw [← hs] at hp
  have ho := oddDayPoints_of_parse receipt _ hp
  simp only [] at ho
  have hP : ParseDate receipt.PurchaseDate
      = (⟨digitVal y1 * 1000 + digitVal y2 * 100 + digitVal y3 * 10 + digitVal y4,
          digitVal m1 * 10 + digitVal m2, digitVal d1 * 10 + digitVal d2, 0, 0⟩, false) := by
    unfold ParseDate
    rw [hp]
  have h2 : oddDayPoints { receipt with PurchaseDate := "2022-01-02" } = 0 := by
    show (if (ParseDate "2022-01-02").1.Day % 2 ≠ 0 then (6 : Int) else 0) = 0
    decide
  refine ⟨by rw [hP], by rw [hP]; rfl, ?_, ?_, ?_, ?_, ?_, ?_, ?_⟩
  · rw [ho]
    by_cases hd : (digitVal d1 * 10 + digitVal d2) % 2 = 1
    · simp [hd]
    · simp [hd]
  · rw [ho]
    by_cases hd : (digitVal d1 * 10 + digitVal d2) % 2 = 1
    · rw [if_pos hd]
      constructor
      · intro h; exact absurd h (by decide)
      · intro h; omega
    · rw [if_neg hd]
      constructor
      · intro _; omega
      · intro _; rfl
  · rw [ho]
    by_cases hd : (digitVal d1 * 10 + digitVal d2) % 2 = 1
    · rw [if_pos hd]
      constructor
      · intro _; omega
      · intro _; rfl
    · rw [if_neg hd]
      constructor
      · intro h; exact absurd h (by decide)
      · intro h; omega
  · intro points
    rw [rule6_eq, ho]
  · rw [calculatePoints_eq_wrap, calculatePoints_eq_wrap, wrapInt_add_left]
    congr 1
    unfold exactPoints
    rw [h2]
    simp only [retailerPoints, pairPoints, descriptionPoints, afternoonPoints]
    ring
  · show (if (ParseDate "2022-01-01").1.Day % 2 ≠ 0 then (6 : Int) else 0) = 6
    decide
  · show (if (ParseDate "2022-03-20").1.Day % 2 ≠ 0 then (6 : Int) else 0) = 0
    decide

/-- The date "2022-03-20" of scenario C: day 20, even, no bonus. -/
theorem odd_day_bonus_witness :
    (⟨"M&M Corner Market", "2022-03-20", "14:33", "9.00", []⟩ : Receipt).PurchaseDate.data
        = ['2', '0', '2', '2', '-', '0', '3', '-', '2', '0']
    ∧ (oddDayPoints ⟨"M&M Corner Market", "2022-03-20", "14:33", "9.00", []⟩ = 6
        ↔ (digitVal '2' * 10 + digitVal '0') % 2 = 1) :=
  ⟨rfl, (odd_day_bonus ⟨"M&M Corner Market", "2022-03-20", "14:33", "9.00", []⟩
      '2' '0' '2' '2' '0' '3' '2' '0' rfl (by decide) (by decide) (by decide)).2.2.1⟩

/-- C12: the score does not depend on the order of the items: for every receipt and every
permutation of its item list, `calculatePoints` returns the same value; so do the two
parts that read the items, the pair count of rule 4 and the sum of rule 5. -/
theorem items_order_irrelevant (receipt : Receipt) (items : List Item)
    (h : List.Perm receipt.Items items) :
    calculatePoints { receipt with Items := items } = calculatePoints receipt
    ∧ pairPoints { receipt with Items := items } = pairPoints receipt
    ∧ descriptionPoints { receipt with Items := items } = descriptionPoints receipt
    ∧ (∀ points : Int, rule5 { receipt with Items := items } (rule4 { receipt with Items := items } points)
        = rule5 receipt (rule4 receipt points)) := by
  have hl : items.length = receipt.Items.length := h.length_eq.symm
  have hsum : (items.map itemPoints).sum = (receipt.Items.map itemPoints).sum :=
    (h.map itemPoints).sum_eq.symm
  have hp : pairPoints { receipt with Items := items } = pairPoints receipt := by
    simp only [pairPoints, hl]
  have hd : descriptionPoints { receipt with Items := items } = descriptionPoints receipt := by
    simp only [descriptionPoints, hsum]
  refine ⟨?_, hp, hd, ?_⟩
  · rw [calculatePoints_eq_wrap, calculatePoints_eq_wrap]
    congr 1
    unfold exactPoints
    rw [hp, hd]
    rfl
  · intro points
    unfold rule4
    rw [rule5_eq, rule5_eq, hd, hl]

/-- Two items of scenario A exchanged. -/
theorem items_order_irrelevant_witness :
    List.Perm (⟨"Target", "2022-01-01", "13:01", "35.35",
        [⟨"Mountain Dew 12PK", "6.49"⟩, ⟨"Emils Cheese Pizza", "12.25"⟩]⟩ : Receipt).Items
      [⟨"Emils Cheese Pizza", "12.25"⟩, ⟨"Mountain Dew 12PK", "6.49"⟩]
    ∧ calculatePoints ⟨"Target", "2022-01-01", "13:01", "35.35",
        [⟨"Emils Cheese Pizza", "12.25"⟩, ⟨"Mountain Dew 12PK", "6.49"⟩]⟩
      = calculatePoints ⟨"Target", "2022-01-01", "13:01", "35.35",
        [⟨"Mountain Dew 12PK", "6.49"⟩, ⟨"Emils Cheese Pizza", "12.25"⟩]⟩ :=
  ⟨List.Perm.swap _ _ _,
    (items_order_irrelevant ⟨"Target", "2022-01-01", "13:01", "35.35",
        [⟨"Mountain Dew 12PK", "6.49"⟩, ⟨"Emils Cheese Pizza", "12.25"⟩]⟩
      [⟨"Emils Cheese Pizza", "12.25"⟩, ⟨"Mountain Dew 12PK", "6.49"⟩]
      (List.Perm.swap _ _ _)).1⟩

/-- C13: scenario C, for every retailer name: the receipt with total "10.00", no items,
purchaseDate "2022-03-20" and purchaseTime "14:33" scores 85 plus the retailer count:
round dollar 50, quarter 25, afternoon 10, and nothing for the items and the day (in 64-bit
arithmetic, and exactly so for every retailer name shorter than `2^62` bytes). -/
theorem scenario_c_score (retailer : String) :
    calculatePoints ⟨retailer, "2022-03-20", "14:33", "10.00", []⟩
      = wrapInt (85 + countAlphanumeric retailer)
    ∧ (len retailer < 2 ^ 62 →
        calculatePoints ⟨retailer, "2022-03-20", "14:33", "10.00", []⟩
          = 85 + countAlphanumeric retailer)
    ∧ roundDollarPoints (ParseFloat "10.00").1 = 50
    ∧ quarterPoints (ParseFloat "10.00").1 = 25
    ∧ pairPoints ⟨retailer, "2022-03-20", "14:33", "10.00", []⟩ = 0
    ∧ descriptionPoints ⟨retailer, "2022-03-20", "14:33", "10.00", []⟩ = 0
    ∧ oddDayPoints ⟨retailer, "2022-03-20", "14:33", "10.00", []⟩ = 0
    ∧ afternoonPoints ⟨retailer, "2022-03-20", "14:33", "10.00", []⟩ = 10
    ∧ calculatePoints ⟨"M&M Corner Market", "2022-03-20", "14:33", "10.00", []⟩ = 99 := by
  have h50 : roundDollarPoints (ParseFloat "10.00").1 = 50 := by decide!
  have h25 : quarterPoints (ParseFloat "10.00").1 = 25 := by decide!
  have hodd : oddDayPoints ⟨retailer, "2022-03-20", "14:33", "10.00", []⟩ = 0 := by
    show (if (ParseDate "2022-03-20").1.Day % 2 ≠ 0 then (6 : Int) else 0) = 0
    decide
  have haft : afternoonPoints ⟨retailer, "2022-03-20", "14:33", "10.00", []⟩ = 10 := by
    show (if (ParseClock "14:33").1.Hour ≥ 14 ∧ (ParseClock "14:33").1.Hour < 16
      then (10 : Int) else 0) = 10
    decide
  have he : exactPoints ⟨retailer, "2022-03-20", "14:33", "10.00", []⟩
      = 85 + countAlphanumeric retailer := by
    unfold exactPoints
    rw [hodd, haft]
    simp only [retailerPoints, pairPoints, descriptionPoints, h50, h25, List.length_nil,
      List.map_nil, List.sum_nil]
    simp
    ring
  refine ⟨?_, ?_, h50, h25, by simp [pairPoints], by simp [descriptionPoints], hodd, haft,
    by decide!⟩
  · rw [calculatePoints_eq_wrap, he]
  · intro hlen
    rw [calculatePoints_eq_wrap, he]
    have h1 := countAlphanumeric_le_len retailer
    have h2 := countAlphanumeric_nonneg retailer
    have h3 : (len retailer : Int) < 2 ^ 62 := by exact_mod_cast hlen
    apply wrapInt_of_range <;> omega


/-! ## The store -/

theorem TrimPrefix_append (pre s : String) : TrimPrefix (pre ++ s) pre = s := by
  unfold TrimPrefix
  have h : pre.data.isPrefixOf (pre ++ s).data = true := by
    rw [String.data_append, List.isPrefixOf_iff_prefix]
    exact List.prefix_append _ _
  rw [if_pos h]
  apply String.ext
  show List.drop pre.data.length (pre ++ s).data = s.data
  rw [String.data_append, List.drop_left]

theorem TrimSuffix_append (s suf : String) : TrimSuffix (s ++ suf) suf = s := by
  unfold TrimSuffix
  have h : suf.data.isSuffixOf (s ++ suf).data = true := by
    rw [String.data_append, List.isSuffixOf_iff_suffix]
    exact List.suffix_append _ _
  rw [if_pos h]
  apply String.ext
  show List.take ((s ++ suf).data.length - suf.data.length) (s ++ suf).data = s.data
  rw [String.data_append, List.length_append, Nat.add_sub_cancel, List.take_left]

/-- The identifier `getPointsHandler` extracts from the path `/receipts/{id}/points`. -/
theorem path_id (id : String) :
    TrimSuffix (TrimPrefix ("/receipts/" ++ id ++ "/points") "/receipts/") "/points" = id := by
  rw [String.append_assoc, TrimPrefix_append, TrimSuffix_append]

theorem get_set_same (s : ReceiptStore) (id : String) (points : Int) :
    (s.set id points).get id = (points, true) := by
  simp [ReceiptStore.get, ReceiptStore.set]

theorem receipts_set_other (s : ReceiptStore) (id k : String) (points : Int) (h : k ≠ id) :
    (s.set id points).receipts k = s.receipts k := by
  simp [ReceiptStore.set, h]

theorem getPointsHandler_path (s : ReceiptStore) (method : String) (body : Option Receipt)
    (id : String) :
    getPointsHandler s ⟨method, "/receipts/" ++ id ++ "/points", body⟩
      = match s.receipts id with
        | some points => (s, Response.Points points)
        | none => (s, Response.Error "Receipt not found" StatusNotFound) := by
  unfold getPointsHandler
  simp only [path_id, ReceiptStore.get]
  cases s.receipts id <;> simp

/-- C14: store round trip: for every store state, every score `p` (zero and negative
included) and every identifier `id`, after the assignment `store.receipts[id] = p` the
lookup of `getPointsHandler` for the path `/receipts/{id}/points` finds the entry and
answers with exactly `p`; in particular after `processReceiptHandler` has answered with an
identifier, `getPointsHandler` answers for it with the score of the receipt. -/
theorem store_round_trip (s : ReceiptStore) (id : String) (p : Int) :
    (s.set id p).get id = (p, true)
    ∧ (∀ (method : String) (body : Option Receipt),
        (getPointsHandler (s.set id p) ⟨method, "/receipts/" ++ id ++ "/points", body⟩).2
          = Response.Points p)
    ∧ (getPointsHandler (s.set id 0) ⟨"GET", "/receipts/" ++ id ++ "/points", none⟩).2
          = Response.Points 0
    ∧ (getPointsHandler (s.set id (-20)) ⟨"GET", "/receipts/" ++ id ++ "/points", none⟩).2
          = Response.Points (-20)
    ∧ (∀ (path : String) (receipt : Receipt),
        (processReceiptHandler s id ⟨"POST", path, some receipt⟩).2 = Response.Id id
        ∧ (getPointsHandler (processReceiptHandler s id ⟨"POST", path, some receipt⟩).1
            ⟨"GET", "/receipts/" ++ id ++ "/points", none⟩).2
          = Response.Points (calculatePoints receipt)) := by
  have hg : ∀ (q : Int) (method : String) (body : Option Receipt),
      (getPointsHandler (s.set id q) ⟨method, "/receipts/" ++ id ++ "/points", body⟩).2
        = Response.Points q := by
    intro q method body
    rw [getPointsHandler_path]
    have : (s.set id q).receipts id = some q := by simp [ReceiptStore.set]
    rw [this]
  refine ⟨get_set_same s id p, hg p, hg 0 _ _, hg (-20) _ _, ?_⟩
  intro path receipt
  have hproc : processReceiptHandler s id ⟨"POST", path, some receipt⟩
      = (s.set id (calculatePoints receipt), Response.Id id) := by
    simp [processReceiptHandler]
  rw [hproc]
  exact ⟨rfl, hg _ _ _⟩

theorem insertAll_absent (entries : List (String × Int)) (s : ReceiptStore) (id : String)
    (hs : s.receipts id = none) (h : id ∉ entries.map Prod.fst) :
    (insertAll s entries).receipts id = none := by
  induction entries generalizing s with
  | nil => exact hs
  | cons e rest ih =>
    rw [List.map_cons, List.mem_cons, not_or] at h
    unfold insertAll
    rw [List.foldl_cons]
    apply ih
    · rw [receipts_set_other _ _ _ _ h.1]
      exact hs
    · exact h.2

/-- C15: for every store built from the empty store by insertions, and every identifier
that was never inserted, the lookup gives `exists = false` and `getPointsHandler` answers
"Receipt not found" with status 404, never a score of 0; an identifier stored with the
score 0 gets the answer `{"points": 0}`, which is a different answer. -/
theorem lookup_of_unknown_id (entries : List (String × Int)) (id : String)
    (h : id ∉ entries.map Prod.fst) :
    ((insertAll store entries).get id).2 = false
    ∧ (∀ (method : String) (body : Option Receipt),
        getPointsHandler (insertAll store entries)
            ⟨method, "/receipts/" ++ id ++ "/points", body⟩
          = (insertAll store entries, Response.Error "Receipt not found" StatusNotFound))
    ∧ (∀ (method : String) (body : Option Receipt),
        (getPointsHandler (insertAll store entries)
            ⟨method, "/receipts/" ++ id ++ "/points", body⟩).2 ≠ Response.Points 0)
    ∧ (∀ (method : String) (body : Option Receipt),
        (getPointsHandler ((insertAll store entries).set id 0)
            ⟨method, "/receipts/" ++ id ++ "/points", body⟩).2 = Response.Points 0)
    ∧ Response.Points 0 ≠ Response.Error "Receipt not found" StatusNotFound := by
  have hn := insertAll_absent entries store id rfl h
  have hg : ∀ (method : String) (body : Option Receipt),
      getPointsHandler (insertAll store entries)
          ⟨method, "/receipts/" ++ id ++ "/points", body⟩
        = (insertAll store entries, Response.Error "Receipt not found" StatusNotFound) := by
    intro method body
    rw [getPointsHandler_path, hn]
  refine ⟨?_, hg, ?_, ?_, by decide⟩
  · unfold ReceiptStore.get
    rw [hn]
  · intro method body
    rw [hg]
    exact fun e => Response.noConfusion e
  · intro method body
    rw [getPointsHandler_path]
    have : ((insertAll store entries).set id 0).receipts id = some 0 := by
      simp [ReceiptStore.set]
    rw [this]

/-- Two receipts stored; the identifier "fresh" was never issued. -/
theorem lookup_of_unknown_id_witness :
    "fresh" ∉ ([("a", 28), ("b", 0)] : List (String × Int)).map Prod.fst
    ∧ ((insertAll store [("a", 28), ("b", 0)]).get "fresh").2 = false :=
  ⟨by decide, (lookup_of_unknown_id [("a", 28), ("b", 0)] "fresh" (by decide)).1⟩



theorem processReceiptHandler_store (s : ReceiptStore) (uuid : String) (r : Request) :
    (processReceiptHandler s uuid r).1 = s
    ∨ ∃ receipt, r.Body = some receipt
        ∧ (processReceiptHandler s uuid r).1 = s.set uuid (calculatePoints receipt) := by
  unfold processReceiptHandler
  by_cases hm : r.Method ≠ "POST"
  · left
    rw [if_pos hm]
  · rw [if_neg hm]
    cases hb : r.Body with
    | none => left; rfl
    | some receipt => right; exact ⟨receipt, rfl, rfl⟩

theorem getPointsHandler_store (s : ReceiptStore) (r : Request) :
    (getPointsHandler s r).1 = s := by
  unfold getPointsHandler
  simp only []
  split <;> rfl

theorem insertAll_present (entries : List (String × Int)) (s : ReceiptStore)
    (hn : (entries.map Prod.fst).Nodup) :
    ∀ e ∈ entries, (insertAll s entries).receipts e.1 = some e.2 := by
  induction entries generalizing s with
  | nil => intro e he; exact absurd he (List.not_mem_nil _)
  | cons a rest ih =>
    rw [List.map_cons, List.nodup_cons] at hn
    intro e he
    rw [List.mem_cons] at he
    have hfold : insertAll s (a :: rest) = insertAll (s.set a.1 a.2) rest := rfl
    rw [hfold]
    rcases he with rfl | he
    · have h1 : ∀ (l : List (String × Int)) (t : ReceiptStore), e.1 ∉ l.map Prod.fst →
          (insertAll t l).receipts e.1 = t.receipts e.1 := by
        intro l
        induction l with
        | nil => intro t _; rfl
        | cons b l' ihl =>
          intro t hb
          rw [List.map_cons, List.mem_cons, not_or] at hb
          have hf : insertAll t (b :: l') = insertAll (t.set b.1 b.2) l' := rfl
          rw [hf, ihl _ hb.2, receipts_set_other _ _ _ _ hb.1]
      rw [h1 rest _ hn.1]
      simp [ReceiptStore.set]
    · exact ih _ hn.2 e he

/-- C17 at the points endpoint: `getPointsHandler` does not look at the method; a DELETE or
a POST request for a stored identifier is answered with the score, while
`processReceiptHandler` answers every request whose method is not POST with "Invalid request
method", status 405, and leaves the store as it was. -/
theorem points_endpoint_ignores_method :
    (getPointsHandler (store.set "123e4567-e89b-42d3-a456-426614174000" 28)
        ⟨"DELETE", "/receipts/123e4567-e89b-42d3-a456-426614174000/points", none⟩).2
      = Response.Points 28
    ∧ (getPointsHandler (store.set "123e4567-e89b-42d3-a456-426614174000" 28)
        ⟨"POST", "/receipts/123e4567-e89b-42d3-a456-426614174000/points", none⟩).2
      = Response.Points 28
    ∧ (∀ (s : ReceiptStore) (id : String) (p : Int) (method : String) (body : Option Receipt),
        s.receipts id = some p →
        getPointsHandler s ⟨method, "/receipts/" ++ id ++ "/points", body⟩
          = (s, Response.Points p))
    ∧ (∀ (s : ReceiptStore) (uuid : String) (r : Request), r.Method ≠ "POST" →
        processReceiptHandler s uuid r
          = (s, Response.Error "Invalid request method" StatusMethodNotAllowed))
    ∧ (∀ (s : ReceiptStore) (q : Request), (getPointsHandler s q).1 = s) := by
  refine ⟨by decide, by decide, ?_, ?_, getPointsHandler_store⟩
  · intro s id p method body h
    rw [getPointsHandler_path, h]
  · intro s uuid r hm
    unfold processReceiptHandler
    rw [if_pos hm]

/-! ## Finite results of `ParseFloat` are float64 values -/

theorem packRounded_fin (neg n : Bool) (R m : Nat) (h : (packRounded neg R).1 = F64.fin n m) :
    m < overflowUnits := by
  unfold packRounded at h
  split at h
  · exact F64.noConfusion h
  · rename_i hlt
    have : R = m := by
      simp only [F64.fin.injEq] at h
      exact h.2
    omega

theorem overflowUnits_pos : 0 < overflowUnits := by
  unfold overflowUnits
  positivity

theorem decimalToF64_fin (neg n : Bool) (mantissa nd m : Nat) (dp : Int)
    (h : (decimalToF64 neg mantissa nd dp).1 = F64.fin n m) : m < overflowUnits := by
  unfold decimalToF64 at h
  split at h
  · simp only [F64.fin.injEq] at h
    rw [← h.2]
    exact overflowUnits_pos
  · split at h
    · exact F64.noConfusion h
    · split at h
      · simp only [F64.fin.injEq] at h
        rw [← h.2]
        exact overflowUnits_pos
      · split at h <;> exact packRounded_fin _ _ _ _ h

theorem atofHex_fin (neg n : Bool) (mantissa nd m : Nat) (dp : Int)
    (h : (atofHex neg mantissa nd dp).1 = F64.fin n m) : m < overflowUnits := by
  unfold atofHex at h
  split at h <;> exact packRounded_fin _ _ _ _ h

theorem special_not_fin (s : List Char) (v : F64) (k : Nat) (n : Bool) (m : Nat)
    (h : special s = some (v, k)) : v ≠ F64.fin n m := by
  have hinf : ∀ (neg : Bool) (ns : Nat) (t : List Char),
      specialInf neg ns t = some (v, k) → v ≠ F64.fin n m := by
    intro neg ns t ht
    unfold specialInf at ht
    dsimp only at ht
    split_ifs at ht <;>
      (simp only [Option.some.injEq, Prod.mk.injEq] at ht
       rw [← ht.1]
       exact fun e => F64.noConfusion e)
  unfold special at h
  match s, h with
  | [], h => exact Option.noConfusion h
  | c :: t, h =>
    simp only [] at h
    split at h
    · exact hinf _ _ _ h
    · split at h
      · exact hinf _ _ _ h
      · split at h
        · exact hinf _ _ _ h
        · split at h
          · split at h
            · simp only [Option.some.injEq, Prod.mk.injEq] at h
              rw [← h.1]
              exact fun e => F64.noConfusion e
            · exact Option.noConfusion h
          · exact Option.noConfusion h

theorem atof64_fin (s : List Char) (n : Bool) (m : Nat) (h : (atof64 s).1 = F64.fin n m) :
    m < overflowUnits := by
  unfold atof64 at h
  cases hsp : special s with
  | some p =>
    obtain ⟨v, k⟩ := p
    rw [hsp] at h
    exact absurd h (special_not_fin s v k n m hsp)
  | none =>
    rw [hsp] at h
    cases hrf : readFloat s with
    | none =>
      rw [hrf] at h
      simp only [F64.zero, F64.fin.injEq] at h
      rw [← h.2]
      exact overflowUnits_pos
    | some p =>
      rw [hrf] at h
      simp only [] at h
      by_cases hx : p.hex
      · rw [if_pos hx] at h
        exact atofHex_fin _ _ _ _ _ _ h
      · rw [if_neg hx] at h
        exact decimalToF64_fin _ _ _ _ _ _ h

/-- A finite value returned by `ParseFloat` lies within the float64 range. -/
theorem ParseFloat_fin (s : String) (n : Bool) (m : Nat) (h : (ParseFloat s).1 = F64.fin n m) :
    m < overflowUnits := by
  unfold ParseFloat at h
  have ha := atof64_fin s.data n m
  rcases hr : atof64 s.data with ⟨f, rest, err⟩
  rw [hr] at h ha
  simp only [] at h ha
  split at h
  · simp only [F64.zero, F64.fin.injEq] at h
    rw [← h.2]
    exact overflowUnits_pos
  · exact ha h

/-! ## The score when no price is negative -/

theorem roundUnits_zero (den : Nat) (hden : 0 < den) : roundUnits 0 den = 0 := by
  obtain ⟨_, _, _, _, _, hexact⟩ := roundUnits_spec 0 den hden
  rw [Nat.zero_div] at hexact
  exact hexact (Nat.zero_mod _) (Nat.zero_mod _)

/-- The product of a finite float64 and `0.2` is finite, with the sign of the factor. -/
theorem mul_pointTwo_fin (neg : Bool) (m : Nat) (hm : m < overflowUnits) :
    F64.mul (F64.fin neg m) F64.pointTwo
      = F64.fin neg (roundUnits (m * (7205759403792794 * 2 ^ 1019)) unit) := by
  have hupos : 0 < unit := by unfold unit; positivity
  have hqpos : 0 < quarterUnit := by unfold quarterUnit; positivity
  have hK : overflowUnits * quarterUnit = unit * 2 ^ 2096 := by
    unfold overflowUnits quarterUnit unit
    rw [← pow_add, ← pow_add]
  have hdiv : m * (7205759403792794 * 2 ^ 1019) / unit < 2 ^ 2096 := by
    apply Nat.div_lt_of_lt_mul
    rw [← hK]
    have h1 := pointTwo_lt
    generalize 7205759403792794 * 2 ^ 1019 = c at h1 ⊢
    have h2 : m * c ≤ m * quarterUnit := Nat.mul_le_mul_left m (le_of_lt h1)
    have h3 : m * quarterUnit < overflowUnits * quarterUnit :=
      Nat.mul_lt_mul_of_pos_right hm hqpos
    omega
  have hR := roundUnits_le _ _ 2096 hupos (by omega) hdiv
  have hov : ¬ overflowUnits ≤ roundUnits (m * (7205759403792794 * 2 ^ 1019)) unit := by
    have h2 : ∀ a b : Nat, a < b → (2 : Nat) ^ a < 2 ^ b :=
      fun a b h => Nat.pow_lt_pow_right (by decide) h
    have h3 := h2 2096 2098 (by decide)
    have h4 : overflowUnits = 2 ^ 2098 := rfl
    rw [h4]
    exact not_le.2 (lt_of_le_of_lt hR h3)
  show ofUnits (neg != false) (roundUnits (m * (7205759403792794 * 2 ^ 1019)) unit) = _
  unfold ofUnits
  rw [if_neg hov, Bool.bne_false]

/-- For a price that is finite and not negative, `ceil(price * 0.2)` is not negative, and
the conversion to `int` returns it whenever it is below `2^63`. -/
theorem price_points_exact (x : F64) (hx : F64.finiteNonNeg x = true)
    (hr : ∀ n m, x = F64.fin n m → m < overflowUnits) :
    0 ≤ F64.ceilInt (F64.mul x F64.pointTwo)
    ∧ (F64.ceilInt (F64.mul x F64.pointTwo) < 2 ^ 63 →
        F64.toInt (F64.Ceil (F64.mul x F64.pointTwo))
          = F64.ceilInt (F64.mul x F64.pointTwo)) := by
  have hupos : 0 < unit := by unfold unit; positivity
  match x, hx, hr with
  | F64.fin false m, _, hr =>
    rw [mul_pointTwo_fin false m (hr false m rfl)]
    generalize roundUnits (m * (7205759403792794 * 2 ^ 1019)) unit = R
    unfold F64.ceilInt F64.Ceil F64.toInt
    simp only []
    refine ⟨Int.ofNat_nonneg _, ?_⟩
    intro hlt
    rw [Nat.mul_div_cancel _ hupos]
    have : (R + unit - 1) / unit < 2 ^ 63 := by exact_mod_cast hlt
    rw [if_pos this]
  | F64.fin true m, hx, hr =>
    have hm : m = 0 := by
      unfold F64.finiteNonNeg at hx
      simpa using hx
    subst hm
    rw [mul_pointTwo_fin true 0 (hr true 0 rfl), Nat.zero_mul, roundUnits_zero unit hupos]
    unfold F64.ceilInt F64.Ceil F64.toInt
    simp

theorem item_points_exact (item : Item)
    (h : (ParseFloat item.Price).2 = some NumError.ErrSyntax
      ∨ ((ParseFloat item.Price).2 = none
          ∧ F64.finiteNonNeg (ParseFloat item.Price).1 = true)) :
    0 ≤ unboundedItemPoints item
    ∧ (unboundedItemPoints item < 2 ^ 63 → itemPoints item = unboundedItemPoints item) := by
  have hx : F64.finiteNonNeg (ParseFloat item.Price).1 = true := by
    rcases h with h | h
    · rw [ParseFloat_syntax_error item.Price h]
      rfl
    · exact h.2
  have hr : ∀ n m, (ParseFloat item.Price).1 = F64.fin n m → m < overflowUnits :=
    fun n m e => ParseFloat_fin item.Price n m e
  obtain ⟨h0, h1⟩ := price_points_exact _ hx hr
  unfold unboundedItemPoints itemPoints
  by_cases hc : len (TrimSpace item.ShortDescription) % 3 = 0
  · rw [if_pos hc, if_pos hc]
    exact ⟨h0, h1⟩
  · rw [if_neg hc, if_neg hc]
    exact ⟨le_refl 0, fun _ => rfl⟩

/-- C19: for every receipt in which each item's price either fails to parse with a syntax
error or parses to a finite number greater than or equal to 0, and whose point total (the
sum of the seven contributions as an unbounded integer) is below `2^63`, `calculatePoints`
returns that total, which is greater than or equal to 0; each of the seven contributions,
and each item's amount, is greater than or equal to 0. -/
theorem score_nonneg_of_nonneg_prices (receipt : Receipt)
    (hprice : ∀ item ∈ receipt.Items,
      (ParseFloat item.Price).2 = some NumError.ErrSyntax
      ∨ ((ParseFloat item.Price).2 = none
          ∧ F64.finiteNonNeg (ParseFloat item.Price).1 = true))
    (hrange : unboundedPoints receipt < 2 ^ 63) :
    0 ≤ calculatePoints receipt
    ∧ calculatePoints receipt = unboundedPoints receipt
    ∧ 0 ≤ retailerPoints receipt
    ∧ 0 ≤ roundDollarPoints (ParseFloat receipt.Total).1
    ∧ 0 ≤ quarterPoints (ParseFloat receipt.Total).1
    ∧ 0 ≤ pairPoints receipt
    ∧ 0 ≤ descriptionPoints receipt
    ∧ 0 ≤ oddDayPoints receipt
    ∧ 0 ≤ afternoonPoints receipt
    ∧ (∀ item ∈ receipt.Items,
        0 ≤ itemPoints item ∧ itemPoints item = unboundedItemPoints item) := by
  have h1 : 0 ≤ retailerPoints receipt := countAlphanumeric_nonneg receipt.Retailer
  have h2 : 0 ≤ roundDollarPoints (ParseFloat receipt.Total).1 := by
    have := roundDollarPoints_cases (ParseFloat receipt.Total).1
    omega
  have h3 : 0 ≤ quarterPoints (ParseFloat receipt.Total).1 := by
    have := quarterPoints_cases (ParseFloat receipt.Total).1
    omega
  have h4 : 0 ≤ pairPoints receipt := by
    unfold pairPoints
    have : (0 : Int) ≤ ((receipt.Items.length / 2 : Nat) : Int) := Int.ofNat_nonneg _
    omega
  have h6 : 0 ≤ oddDayPoints receipt := by
    have := oddDayPoints_cases receipt
    omega
  have h7 : 0 ≤ afternoonPoints receipt := by
    have := afternoonPoints_cases receipt
    omega
  have hnn : ∀ x ∈ receipt.Items.map unboundedItemPoints, 0 ≤ x := by
    intro x hx
    obtain ⟨item, hmem, rfl⟩ := List.mem_map.1 hx
    exact (item_points_exact item (hprice item hmem)).1
  have hsum : 0 ≤ (receipt.Items.map unboundedItemPoints).sum := List.sum_nonneg hnn
  have hle : ∀ item ∈ receipt.Items, unboundedItemPoints item < 2 ^ 63 := by
    intro item hmem
    have := List.single_le_sum hnn _ (List.mem_map_of_mem unboundedItemPoints hmem)
    unfold unboundedPoints at hrange
    omega
  have heq : ∀ item ∈ receipt.Items, itemPoints item = unboundedItemPoints item :=
    fun item hmem => (item_points_exact item (hprice item hmem)).2 (hle item hmem)
  have hmap : receipt.Items.map itemPoints = receipt.Items.map unboundedItemPoints :=
    List.map_congr_left heq
  have hd : descriptionPoints receipt = (receipt.Items.map unboundedItemPoints).sum := by
    unfold descriptionPoints
    rw [hmap]
  have he : exactPoints receipt = unboundedPoints receipt := by
    unfold exactPoints unboundedPoints
    rw [hd]
  have h0 : 0 ≤ unboundedPoints receipt := by
    unfold unboundedPoints
    omega
  have hc : calculatePoints receipt = unboundedPoints receipt := by
    rw [calculatePoints_eq_wrap, he]
    exact wrapInt_of_range _ (by omega) hrange
  refine ⟨by rw [hc]; exact h0, hc, h1, h2, h3, h4, by rw [hd]; exact hsum, h6, h7, ?_⟩
  intro item hmem
  have := heq item hmem
  exact ⟨by rw [this]; exact (item_points_exact item (hprice item hmem)).1, this⟩

/-- A receipt with one price that does not parse and one that does: the score is 14. -/
theorem score_nonneg_of_nonneg_prices_witness :
    (∀ item ∈ (⟨"Target", "2022-01-02", "13:01", "35.35",
        [⟨"abc", "n/a"⟩, ⟨"Emils Cheese Pizza", "12.25"⟩]⟩ : Receipt).Items,
      (ParseFloat item.Price).2 = some NumError.ErrSyntax
      ∨ ((ParseFloat item.Price).2 = none
          ∧ F64.finiteNonNeg (ParseFloat item.Price).1 = true))
    ∧ unboundedPoints ⟨"Target", "2022-01-02", "13:01", "35.35",
        [⟨"abc", "n/a"⟩, ⟨"Emils Cheese Pizza", "12.25"⟩]⟩ = 14
    ∧ 0 ≤ calculatePoints ⟨"Target", "2022-01-02", "13:01", "35.35",
        [⟨"abc", "n/a"⟩, ⟨"Emils Cheese Pizza", "12.25"⟩]⟩ :=
  ⟨by decide!, by decide!,
    (score_nonneg_of_nonneg_prices ⟨"Target", "2022-01-02", "13:01", "35.35",
        [⟨"abc", "n/a"⟩, ⟨"Emils Cheese Pizza", "12.25"⟩]⟩ (by decide!) (by decide!)).1⟩

/-! ## Bytes and characters -/

theorem len_eq_utf8ByteSize (s : String) : len s = s.utf8ByteSize := by
  unfold len
  show _ = String.utf8ByteSize.go s.data
  induction s.data with
  | nil => rfl
  | cons c t ih =>
    rw [List.map_cons, List.sum_cons, ih]
    show _ = String.utf8ByteSize.go t + c.utf8Size
    omega

theorem utf8Size_ascii (c : Char) (h : c.toNat < 128) : c.utf8Size = 1 := by
  unfold Char.utf8Size
  have : c.val ≤ UInt32.ofNatCore 127 (by decide) := by
    show c.val.toNat ≤ 127
    have : c.val.toNat = c.toNat := rfl
    omega
  simp only []
  rw [if_pos this]

theorem sum_utf8Size_ascii (l : List Char) (h : ∀ c ∈ l, c.toNat < 128) :
    (l.map Char.utf8Size).sum = l.length := by
  induction l with
  | nil => rfl
  | cons c t ih =>
    rw [List.map_cons, List.sum_cons, utf8Size_ascii c (h c (List.mem_cons_self _ _)),
      ih (fun d hd => h d (List.mem_cons_of_mem _ hd)), List.length_cons]
    omega

theorem TrimSpace_subset (s : String) : (TrimSpace s).data ⊆ s.data := by
  unfold TrimSpace
  exact (List.rdropWhile_prefix _ _).subset.trans (List.dropWhile_suffix _).subset

/-- C20: rule 5 measures the trimmed description in bytes of its UTF-8 encoding: for every
item the loop body adds the price-based amount exactly when `len`, the number of bytes of
`strings.TrimSpace(shortDescription)`, is divisible by 3; on a description made of ASCII
characters only the number of bytes is the number of characters, so both measures agree;
and the description "Brûlée" has a non-ASCII character and 6 characters, a multiple of 3,
but 8 bytes: it earns nothing where "Brulee" at the same price earns 2. -/
theorem description_length_in_bytes (item : Item) :
    (∀ points : Int, rule5Item points item
        = if (TrimSpace item.ShortDescription).utf8ByteSize % 3 = 0 then
            wrapInt (points
              + F64.toInt (F64.Ceil (F64.mul (ParseFloat item.Price).1 F64.pointTwo)))
          else points)
    ∧ len (TrimSpace item.ShortDescription) = (TrimSpace item.ShortDescription).utf8ByteSize
    ∧ len (TrimSpace item.ShortDescription) = (TrimSpace item.ShortDescription).toUTF8.size
    ∧ (TrimSpace item.ShortDescription).length ≤ len (TrimSpace item.ShortDescription)
    ∧ ((∀ c ∈ item.ShortDescription.data, c.toNat < 128) →
        len (TrimSpace item.ShortDescription) = (TrimSpace item.ShortDescription).length
        ∧ (len (TrimSpace item.ShortDescription) % 3 = 0
            ↔ (TrimSpace item.ShortDescription).length % 3 = 0))
    ∧ (∃ c ∈ "Brûlée".data, 128 ≤ c.toNat)
    ∧ (TrimSpace "Brûlée").length = 6
    ∧ len (TrimSpace "Brûlée") = 8
    ∧ itemPoints ⟨"Brûlée", "10.00"⟩ = 0
    ∧ rule5Item 0 ⟨"Brûlée", "10.00"⟩ = 0
    ∧ itemPoints ⟨"Brulee", "10.00"⟩ = 2 := by
  have hb := len_eq_utf8ByteSize (TrimSpace item.ShortDescription)
  refine ⟨?_, hb, ?_, length_le_utf8 _, ?_, by decide, by decide, by decide, by decide!,
    by decide!, by decide!⟩
  · intro points
    rw [← hb]
    rfl
  · rw [String.size_toUTF8, hb]
  · intro hascii
    have hlen : len (TrimSpace item.ShortDescription)
        = (TrimSpace item.ShortDescription).length :=
      sum_utf8Size_ascii _ (fun c hc => hascii c (TrimSpace_subset _ hc))
    exact ⟨hlen, by rw [hlen]⟩

/-! ## Entries are never overwritten -/

theorem Call.run_of_drawn (s : ReceiptStore) (c : Call) :
    (c.drawn = [] ∧ c.run s = s)
    ∨ ∃ uuid points, c.drawn = [uuid] ∧ c.run s = s.set uuid points := by
  cases c with
  | points r => left; exact ⟨rfl, getPointsHandler_store s r⟩
  | process uuid r =>
    unfold Call.drawn Call.run processReceiptHandler
    by_cases hm : r.Method = "POST"
    · cases hb : r.Body with
      | none => left; simp [hm, hb]
      | some receipt =>
        right
        exact ⟨uuid, calculatePoints receipt, by simp [hm, hb], by simp [hm, hb]⟩
    · left
      simp [hm]

theorem serve_cons (s : ReceiptStore) (c : Call) (rest : List Call) :
    serve s (c :: rest) = serve (c.run s) rest := rfl

theorem serve_append (s : ReceiptStore) (calls more : List Call) :
    serve s (calls ++ more) = serve (serve s calls) more := by
  unfold serve
  rw [List.foldl_append]

theorem drawnIds_append (calls more : List Call) :
    drawnIds (calls ++ more) = drawnIds calls ++ drawnIds more := by
  induction calls with
  | nil => rfl
  | cons c rest ih =>
    rw [List.cons_append, drawnIds, drawnIds, ih, List.append_assoc]

/-- Every key of the store was drawn from `uuid.New()` by an earlier call. -/
theorem keys_drawn (calls : List Call) (s : ReceiptStore) (used : List String)
    (hs : ∀ id p, s.receipts id = some p → id ∈ used) :
    ∀ id p, (serve s calls).receipts id = some p → id ∈ used ++ drawnIds calls := by
  induction calls generalizing s used with
  | nil =>
    intro id p h
    rw [drawnIds, List.append_nil]
    exact hs id p h
  | cons c rest ih =>
    intro id p h
    rw [serve_cons] at h
    rw [drawnIds, ← List.append_assoc]
    refine ih (c.run s) (used ++ c.drawn) ?_ id p h
    intro k q hk
    rcases Call.run_of_drawn s c with ⟨hd, hr⟩ | ⟨uuid, points, hd, hr⟩
    · rw [hr] at hk
      rw [hd, List.append_nil]
      exact hs k q hk
    · rw [hr] at hk
      rw [hd]
      by_cases hku : k = uuid
      · rw [hku]
        simp
      · rw [receipts_set_other _ _ _ _ hku] at hk
        exact List.mem_append_left _ (hs k q hk)

/-- An entry stays as it is through every later call, as long as no identifier is drawn
twice. -/
theorem entries_persist (more : List Call) (s : ReceiptStore) (used : List String)
    (hs : ∀ id p, s.receipts id = some p → id ∈ used)
    (hn : (used ++ drawnIds more).Nodup) :
    ∀ id p, s.receipts id = some p → (serve s more).receipts id = some p := by
  induction more generalizing s used with
  | nil => intro id p h; exact h
  | cons c rest ih =>
    intro id p h
    rw [serve_cons]
    rw [drawnIds, ← List.append_assoc] at hn
    rcases Call.run_of_drawn s c with ⟨hd, hr⟩ | ⟨uuid, points, hd, hr⟩
    · rw [hr]
      rw [hd, List.append_nil] at hn
      exact ih s used hs hn id p h
    · rw [hd] at hn
      have hfresh : uuid ∉ used := by
        have h1 : (used ++ [uuid]).Nodup := (List.nodup_append.1 hn).1
        have h2 := List.nodup_append.1 h1
        intro hmem
        exact h2.2.2 hmem (List.mem_singleton_self uuid)
      have hne : id ≠ uuid := fun e => hfresh (e ▸ hs id p h)
      refine ih (c.run s) (used ++ [uuid]) ?_ hn id p ?_
      · intro k q hk
        rw [hr] at hk
        by_cases hku : k = uuid
        · rw [hku]
          simp
        · rw [receipts_set_other _ _ _ _ hku] at hk
          exact List.mem_append_left _ (hs k q hk)
      · rw [hr, receipts_set_other _ _ _ _ hne]
        exact h

/-- C16: an insertion never overwrites an existing entry.  With `uuid.New()` never returning
the same identifier twice (the identifiers drawn during the calls are pairwise different),
for every store state reached from the empty store by calls of the two handlers and every
further call of `processReceiptHandler`, every identifier present before the call is present
afterwards with the same score; `getPointsHandler` never changes the store; and an entry,
once written, keeps its score through every later sequence of calls. -/
theorem insertion_never_overwrites (calls : List Call) (uuid : String) (r : Request)
    (hunique : (drawnIds (calls ++ [Call.process uuid r])).Nodup) :
    (∀ (id : String) (p : Int), (serve store calls).receipts id = some p →
        (processReceiptHandler (serve store calls) uuid r).1.receipts id = some p)
    ∧ (∀ q : Request, (getPointsHandler (serve store calls) q).1 = serve store calls)
    ∧ (∀ more : List Call, (drawnIds (calls ++ more)).Nodup →
        ∀ (id : String) (p : Int), (serve store calls).receipts id = some p →
          (serve store (calls ++ more)).receipts id = some p) := by
  have hkeys : ∀ id p, (serve store calls).receipts id = some p → id ∈ drawnIds calls := by
    intro id p h
    have h0 : ∀ (k : String) (q : Int), store.receipts k = some q → k ∈ ([] : List String) :=
      fun k q hk => Option.noConfusion hk
    have := keys_drawn calls store [] h0 id p h
    rwa [List.nil_append] at this
  have hmore : ∀ more : List Call, (drawnIds (calls ++ more)).Nodup →
      ∀ (id : String) (p : Int), (serve store calls).receipts id = some p →
        (serve store (calls ++ more)).receipts id = some p := by
    intro more hn id p h
    rw [drawnIds_append] at hn
    rw [serve_append]
    exact entries_persist more (serve store calls) (drawnIds calls) hkeys hn id p h
  refine ⟨?_, getPointsHandler_store _, hmore⟩
  intro id p h
  have := hmore [Call.process uuid r] hunique id p h
  rw [serve_append] at this
  exact this

/-- A second receipt stored under another identifier leaves the first entry as it was. -/
theorem insertion_never_overwrites_witness :
    (drawnIds ([Call.process "123e4567-e89b-42d3-a456-426614174000"
          ⟨"POST", "/receipts/process",
            some ⟨"Target", "2022-01-01", "13:01", "35.35", [⟨"Emils Cheese Pizza", "12.25"⟩]⟩⟩]
        ++ [Call.process "9b2f0c1e-7d4a-4f6b-8e21-0a1b2c3d4e5f"
          ⟨"POST", "/receipts/process",
            some ⟨"M&M Corner Market", "2022-03-20", "14:33", "9.00", []⟩⟩])).Nodup
    ∧ (serve store [Call.process "123e4567-e89b-42d3-a456-426614174000"
          ⟨"POST", "/receipts/process",
            some ⟨"Target", "2022-01-01", "13:01", "35.35",
              [⟨"Emils Cheese Pizza", "12.25"⟩]⟩⟩]).receipts
        "123e4567-e89b-42d3-a456-426614174000" = some 15
    ∧ (processReceiptHandler
        (serve store [Call.process "123e4567-e89b-42d3-a456-426614174000"
          ⟨"POST", "/receipts/process",
            some ⟨"Target", "2022-01-01", "13:01", "35.35",
              [⟨"Emils Cheese Pizza", "12.25"⟩]⟩⟩])
        "9b2f0c1e-7d4a-4f6b-8e21-0a1b2c3d4e5f"
        ⟨"POST", "/receipts/process",
          some ⟨"M&M Corner Market", "2022-03-20", "14:33", "9.00", []⟩⟩).1.receipts
        "123e4567-e89b-42d3-a456-426614174000" = some 15 :=
  ⟨by decide, by decide!,
    (insertion_never_overwrites
      [Call.process "123e4567-e89b-42d3-a456-426614174000"
          ⟨"POST", "/receipts/process",
            some ⟨"Target", "2022-01-01", "13:01", "35.35", [⟨"Emils Cheese Pizza", "12.25"⟩]⟩⟩]
      "9b2f0c1e-7d4a-4f6b-8e21-0a1b2c3d4e5f"
      ⟨"POST", "/receipts/process", some ⟨"M&M Corner Market", "2022-03-20", "14:33", "9.00", []⟩⟩
      (by decide)).1 "123e4567-e89b-42d3-a456-426614174000" 15 (by decide!)⟩

/-! ## The sign of the score, for the items rule 5 counts -/

theorem counted_item_points_exact (item : Item)
    (h : len (TrimSpace item.ShortDescription) % 3 = 0 →
      F64.finiteNonNeg (ParseFloat item.Price).1 = true) :
    0 ≤ unboundedItemPoints item
    ∧ (unboundedItemPoints item < 2 ^ 63 → itemPoints item = unboundedItemPoints item) := by
  unfold unboundedItemPoints itemPoints
  by_cases hc : len (TrimSpace item.ShortDescription) % 3 = 0
  · rw [if_pos hc, if_pos hc]
    exact price_points_exact _ (h hc) (fun n m e => ParseFloat_fin item.Price n m e)
  · rw [if_neg hc, if_neg hc]
    exact ⟨le_refl 0, fun _ => rfl⟩

/-- C1, for receipts without a negative, infinite or NaN price among the items rule 5
counts: for every receipt in which each item whose trimmed description length is a multiple
of 3 has a price that parses, or after a syntax error defaults, to a finite number that is
not negative (`-0` included), and whose point total (the sum of the seven contributions as
an unbounded integer) is below `2^63`, `calculatePoints` returns that total, an integer
greater than or equal to 0.  The prices of the other items are not restricted. -/
theorem calculatePoints_nonneg (receipt : Receipt)
    (hprice : ∀ item ∈ receipt.Items, len (TrimSpace item.ShortDescription) % 3 = 0 →
      F64.finiteNonNeg (ParseFloat item.Price).1 = true)
    (hrange : unboundedPoints receipt < 2 ^ 63) :
    0 ≤ calculatePoints receipt
    ∧ calculatePoints receipt = unboundedPoints receipt
    ∧ (∀ item ∈ receipt.Items, 0 ≤ itemPoints item) := by
  have h1 : 0 ≤ retailerPoints receipt := countAlphanumeric_nonneg receipt.Retailer
  have h2 := roundDollarPoints_cases (ParseFloat receipt.Total).1
  have h3 := quarterPoints_cases (ParseFloat receipt.Total).1
  have h4 : 0 ≤ pairPoints receipt := by
    unfold pairPoints
    have : (0 : Int) ≤ ((receipt.Items.length / 2 : Nat) : Int) := Int.ofNat_nonneg _
    omega
  have h6 := oddDayPoints_cases receipt
  have h7 := afternoonPoints_cases receipt
  have hnn : ∀ x ∈ receipt.Items.map unboundedItemPoints, 0 ≤ x := by
    intro x hx
    obtain ⟨item, hmem, rfl⟩ := List.mem_map.1 hx
    exact (counted_item_points_exact item (hprice item hmem)).1
  have hsum : 0 ≤ (receipt.Items.map unboundedItemPoints).sum := List.sum_nonneg hnn
  have hle : ∀ item ∈ receipt.Items, unboundedItemPoints item < 2 ^ 63 := by
    intro item hmem
    have := List.single_le_sum hnn _ (List.mem_map_of_mem unboundedItemPoints hmem)
    unfold unboundedPoints at hrange
    omega
  have heq : ∀ item ∈ receipt.Items, itemPoints item = unboundedItemPoints item :=
    fun item hmem => (counted_item_points_exact item (hprice item hmem)).2 (hle item hmem)
  have hd : descriptionPoints receipt = (receipt.Items.map unboundedItemPoints).sum := by
    unfold descriptionPoints
    rw [List.map_congr_left heq]
  have he : exactPoints receipt = unboundedPoints receipt := by
    unfold exactPoints unboundedPoints
    rw [hd]
  have h0 : 0 ≤ unboundedPoints receipt := by
    unfold unboundedPoints
    omega
  have hc : calculatePoints receipt = unboundedPoints receipt := by
    rw [calculatePoints_eq_wrap, he]
    exact wrapInt_of_range _ (by omega) hrange
  refine ⟨by rw [hc]; exact h0, hc, ?_⟩
  intro item hmem
  rw [heq item hmem]
  exact (counted_item_points_exact item (hprice item hmem)).1

/-- A receipt with the prices "-0.00" and "1e19" on counted items and a negative price on an
item rule 5 does not count: the score is 2000000000000000016. -/
theorem calculatePoints_nonneg_witness :
    (∀ item ∈ (⟨"Target", "2022-01-02", "13:01", "35.35",
        [⟨"abc", "-0.00"⟩, ⟨"Pallet", "1e19"⟩, ⟨"Coupon", "n/a"⟩, ⟨"Void", "-5.00"⟩]⟩
          : Receipt).Items,
      len (TrimSpace item.ShortDescription) % 3 = 0 →
        F64.finiteNonNeg (ParseFloat item.Price).1 = true)
    ∧ unboundedPoints ⟨"Target", "2022-01-02", "13:01", "35.35",
        [⟨"abc", "-0.00"⟩, ⟨"Pallet", "1e19"⟩, ⟨"Coupon", "n/a"⟩, ⟨"Void", "-5.00"⟩]⟩
        = 2000000000000000016
    ∧ 0 ≤ calculatePoints ⟨"Target", "2022-01-02", "13:01", "35.35",
        [⟨"abc", "-0.00"⟩, ⟨"Pallet", "1e19"⟩, ⟨"Coupon", "n/a"⟩, ⟨"Void", "-5.00"⟩]⟩
    ∧ calculatePoints ⟨"Target", "2022-01-02", "13:01", "35.35",
        [⟨"abc", "-0.00"⟩, ⟨"Pallet", "1e19"⟩, ⟨"Coupon", "n/a"⟩, ⟨"Void", "-5.00"⟩]⟩
        = 2000000000000000016 :=
  ⟨by decide!, by decide!,
    (calculatePoints_nonneg ⟨"Target", "2022-01-02", "13:01", "35.35",
        [⟨"abc", "-0.00"⟩, ⟨"Pallet", "1e19"⟩, ⟨"Coupon", "n/a"⟩, ⟨"Void", "-5.00"⟩]⟩
      (by decide!) (by decide!)).1,
    by decide!⟩

end ReceiptProcessor
